import Mathlib

set_option autoImplicit false

/-!
# GoPress plugin runtime (`plugins/manager.go`) and archive upload (`main.go`)

A shallow embedding of the plugin manager: the registry, the loader
(`Init`, `loadOne`, `loadJS`, `loadGo`) and the dispatcher (`ApplyFilter`,
`ApplyRequestFilter`, `ApplyResponseFilter`, `MatchRoute`, `GetActiveRoutes`),
and of `Unzip`, which extracts an uploaded archive into the plugins root.

Conventions of the embedding.

* A Go `map[string]T` is an association list with at most one entry per key
  (`GoMap`); a nil map reads like the empty map.
* Calls into plugin code (hooks, route handlers) are effectful: they live in
  a monad `m`, about which the dispatcher assumes nothing.  Instantiating
  `m` with `Id` gives pure plugins, with `Logged E` plugins that leave a trace
  of what was invoked, with `Except GoPanic` plugins that may panic.
* The range loop over the registry visits the instances in an order Go leaves
  unspecified: the dispatcher functions take the instances as the list
  `Instances`, in the order the loop visits them.
* The file system, the JSON decoder and the two script engines are not part
  of the repository: they are the fields of `Env`.
* Plugin code keeps two handles on its own instance after the load:
  `RegisterRoute`, which appends to `p.Routes`, and the shared map `p.Config`.
  What it writes through them while a hook or a handler runs is an effect in
  `m` (the monad `Stored σ` makes such a store explicit). A dispatch call reads
  `Meta` and `Hooks`, which plugin code cannot reach, and the routes of an
  instance as `range p.Routes` finds them before any handler of that instance
  runs.
* The reader/writer lock `mu` is not modelled.
* Paths use the Unix separator `/`; `Unzip` returns the file-system calls it
  makes, in order, the outcome of each call being given by `Disk`.
-/

namespace GoPress

/-! ## Go maps -/

/-- A Go `map[string]α`: an association list, one entry per key. -/
abbrev GoMap (α : Type) := List (String × α)

namespace GoMap

/-- The comma-ok lookup `v, ok := mp[k]`. -/
def get {α : Type} : GoMap α → String → Option α
  | [], _ => none
  | (k', v) :: rest, k => if k' = k then some v else get rest k

/-- The assignment `mp[k] = v`: replaces the entry of `k`, or adds one. -/
def set {α : Type} : GoMap α → String → α → GoMap α
  | [], k, v => [(k, v)]
  | (k', v') :: rest, k, v =>
    if k' = k then (k, v) :: rest else (k', v') :: set rest k v

/-- The keys of the map. -/
def keys {α : Type} (mp : GoMap α) : List String := mp.map Prod.fst

/-- The values of the map. -/
def values {α : Type} (mp : GoMap α) : List α := mp.map Prod.snd

end GoMap

/-! ## Library functions used by the manager -/

namespace strings

/-- Go `strings.ToUpper`, on ASCII letters (other runes are kept). -/
def ToUpper (s : String) : String := String.mk (s.data.map Char.toUpper)

/-- Go `strings.ToLower`, on ASCII letters (other runes are kept). -/
def ToLower (s : String) : String := String.mk (s.data.map Char.toLower)

/-- The table of package `unicode` that `strings.EqualFold` consults through
`unicode.SimpleFold`. For runes `lo < hi` with `hi` outside ASCII,
`Folds lo hi` is the outcome of the general case of `strings.EqualFold`,
`r := unicode.SimpleFold(lo); for r != lo && r < hi { r = unicode.SimpleFold(r) }`
followed by the test `r == hi`: whether `hi` is in the orbit of `lo` under
Unicode simple case folding. -/
structure CaseFolding where
  Folds : Char → Char → Bool

/-- The comparison `strings.EqualFold` makes of a rune `sr` of its first
argument with the rune `tr` of its second argument: equal runes; or, with
the smaller one called `lo` and the larger one `hi`, an upper-case ASCII
letter `lo` and its lower-case letter `hi` when `hi` is below
`utf8.RuneSelf`; or the table of simple case folding otherwise. -/
def foldRune (U : CaseFolding) (sr tr : Char) : Bool :=
  if tr = sr then true
  else
    let lo := if tr.toNat < sr.toNat then tr else sr
    let hi := if tr.toNat < sr.toNat then sr else tr
    if hi.toNat < 128 then
      decide (65 ≤ lo.toNat ∧ lo.toNat ≤ 90 ∧ hi.toNat = lo.toNat + 32)
    else U.Folds lo hi

/-- The loop of `strings.EqualFold` over the runes of both strings. -/
def equalFoldRunes (U : CaseFolding) : List Char → List Char → Bool
  | [], [] => true
  | sr :: s, tr :: t => foldRune U sr tr && equalFoldRunes U s t
  | _, _ => false

/-- Go `strings.EqualFold`: equality of two strings under Unicode simple case
folding, rune by rune. -/
def EqualFold (U : CaseFolding) (s t : String) : Bool := equalFoldRunes U s.data t.data

/-- Go `strings.Contains(s, ":")` for a one-rune needle. -/
def ContainsRune (s : String) (c : Char) : Bool := s.data.contains c

end strings

namespace filepath

/-- The scan of `filepath.Ext`, over the reversed path: walks back from the
end up to the first separator, `acc` being the suffix already passed. -/
def extScan : List Char → List Char → List Char
  | [], _ => []
  | c :: before, acc =>
    if c = '/' then []
    else if c = '.' then c :: acc
    else extScan before (c :: acc)

/-- Go `filepath.Ext`: the suffix of the last path element that starts at its
final dot, or the empty string. -/
def Ext (path : String) : String := String.mk (extScan path.data.reverse [])

/-- Splits a path at the separator `/`. -/
def splitSep : List Char → List (List Char)
  | [] => [[]]
  | c :: cs =>
    match splitSep cs with
    | [] => [[]]
    | w :: ws => if c = '/' then [] :: w :: ws else (c :: w) :: ws

/-- The element-wise pass of `filepath.Clean`: `stack` holds the elements
kept so far, last one first. -/
def cleanElems (rooted : Bool) : List (List Char) → List (List Char) → List (List Char)
  | [], stack => stack.reverse
  | e :: es, stack =>
    if e = [] ∨ e = ['.'] then cleanElems rooted es stack
    else if e = ['.', '.'] then
      match stack with
      | top :: below =>
        if top = ['.', '.'] then cleanElems rooted es (e :: stack)
        else cleanElems rooted es below
      | [] => if rooted then cleanElems rooted es [] else cleanElems rooted es [e]
    else cleanElems rooted es (e :: stack)

/-- Go `filepath.Clean` (Unix separator). -/
def Clean (path : String) : String :=
  let rooted := path.data.head? = some '/'
  let body := List.intercalate ['/'] (cleanElems rooted (splitSep path.data) [])
  if rooted then String.mk ('/' :: body)
  else if body = [] then "." else String.mk body

/-- Go `filepath.Join` of two elements: from the first non-empty element on,
the elements are joined by the separator and the result is cleaned; the
result is empty when both elements are. -/
def Join (a b : String) : String :=
  if a ≠ "" then Clean (a ++ "/" ++ b)
  else if b ≠ "" then Clean b
  else ""

end filepath

/-! ## Data model -/

/-- The struct `PluginSetting` (its field `Type`, a reserved word here, is `Kind`). -/
structure PluginSetting where
  Key : String
  Label : String
  Kind : String
  Value : String
  Default : String
  Options : List String
  Description : String
  deriving DecidableEq, Repr

/-- The struct `PluginMetadata`. -/
structure PluginMetadata where
  ID : String
  Name : String
  Version : String
  Description : String
  Author : String
  Entry : String
  Active : Bool
  Settings : List PluginSetting
  DirName : String
  deriving DecidableEq, Repr

/-- The struct `RouteDef`. -/
structure RouteDef where
  Method : String
  Path : String
  HandlerName : String
  deriving DecidableEq, Repr

/-- A run-time panic of the Go program. -/
inductive GoPanic where
  | nilDereference
  | nilMapWrite
  | other (msg : String)
  deriving DecidableEq, Repr

/-- A `goja.Value` as the manager observes it: through `Export()` and through
`String()`. -/
structure JsValue (V : Type) where
  Export : V
  Text : String

/-- A `goja.Callable` applied to `goja.Undefined()` and one string argument:
it returns `(Value, error)`. -/
abbrev JsCallable (m : Type → Type) (V : Type) := String → m (Except String (JsValue V))

/-- A `*goja.Runtime`. `Get name` is `goja.AssertFunction(vm.Get(name))`: the
callable bound to the global `name`, when there is one. -/
structure JsRuntime (m : Type → Type) (V : Type) where
  Get : String → Option (JsCallable m V)

/-- A `reflect.Value` as the manager observes it: through `Interface()` and
through `String()`. -/
structure GoValue (V : Type) where
  Interface : V
  Text : String

/-- A `reflect.Value` of kind `Func`, called on one string argument: it
returns the slice of results. -/
abbrev GoFunc (m : Type → Type) (V : Type) := String → m (List (GoValue V))

/-- A `*interp.Interpreter`. `Eval name` is `some f` when `i.Eval(name)`
returns no error and a value of kind `reflect.Func`. -/
structure GoInterp (m : Type → Type) (V : Type) where
  Eval : String → Option (GoFunc m V)

/-- The struct `PluginInstance`. `V` is the type of the values route handlers return
(Go `interface{}`). -/
structure PluginInstance (m : Type → Type) (V : Type) where
  Meta : PluginMetadata
  Config : GoMap String
  Routes : List RouteDef
  Hooks : GoMap (String → m String)
  JsVM : Option (JsRuntime m V)
  GoInt : Option (GoInterp m V)

/-! ## Dispatcher -/

section Dispatcher

variable {m : Type → Type} [Monad m] {V : Type}

/-- The function `ApplyFilter(hookName, content)`. The guard `p.Hooks != nil` is part of
the lookup, a nil map having no entry. -/
def ApplyFilter : List (PluginInstance m V) → String → String → m String
  | [], _, content => pure content
  | p :: rest, hookName, content =>
    if p.Meta.Active then
      match GoMap.get p.Hooks hookName with
      | some hook => hook content >>= fun content => ApplyFilter rest hookName content
      | none => ApplyFilter rest hookName content
    else ApplyFilter rest hookName content

/-- The function `ApplyRequestFilter(url)`. -/
def ApplyRequestFilter : List (PluginInstance m V) → String → m (String × Bool)
  | [], _ => pure ("", false)
  | p :: rest, url =>
    if p.Meta.Active then
      match GoMap.get p.Hooks "OnRequest" with
      | some hook =>
        hook url >>= fun res =>
          if res ≠ "" then pure (res, true) else ApplyRequestFilter rest url
      | none => ApplyRequestFilter rest url
    else ApplyRequestFilter rest url

/-- The payload of `ApplyResponseFilter`: `json.Marshal` of the map with the
keys `url` and `html` (the decoder being outside the repository, the payload
is kept as the list of its fields, in the order `json.Marshal` writes map
keys, which is sorted). -/
def responsePayload (url html : String) : List (String × String) :=
  [("html", html), ("url", url)]

/-- The function `ApplyResponseFilter(url, html)`, `encode` being
`json.Marshal` on the payload. The loop reads `p.Meta.Active` and `p.Hooks`,
which plugin code cannot reach, and writes nothing; what a hook itself writes
while it runs (it may call `RegisterRoute`, which appends to the routes of its
own instance) is an effect of the hook, in `m`. -/
def ApplyResponseFilter (encode : List (String × String) → String) :
    List (PluginInstance m V) → String → String → m Unit
  | [], _, _ => pure ()
  | p :: rest, url, html =>
    if p.Meta.Active then
      match GoMap.get p.Hooks "OnResponse" with
      | some hook =>
        hook (encode (responsePayload url html)) >>= fun _ =>
          ApplyResponseFilter encode rest url html
      | none => ApplyResponseFilter encode rest url html
    else ApplyResponseFilter encode rest url html

/-- The `p.GoInt != nil` block of `MatchRoute` for a matching route `r`:
`some v` when the block returns `(v, true)`, `none` when control falls out
of it. -/
def MatchRoute.viaGo (p : PluginInstance m V) (r : RouteDef) (path : String) :
    m (Option V) :=
  match p.GoInt with
  | some i =>
    match i.Eval r.HandlerName with
    | some v =>
      v path >>= fun res =>
        match res with
        | res0 :: _ => pure (some res0.Interface)
        | [] => pure none
    | none => pure none
  | none => pure none

/-- The body of `MatchRoute` for a matching route `r`: the `p.JsVM != nil`
block, then the `p.GoInt != nil` block. -/
def MatchRoute.invoke (p : PluginInstance m V) (r : RouteDef) (path : String) :
    m (Option V) :=
  match p.JsVM with
  | some vm =>
    match vm.Get r.HandlerName with
    | some fn =>
      fn path >>= fun out =>
        match out with
        | .ok res => pure (some res.Export)
        | .error _ => MatchRoute.viaGo p r path
    | none => MatchRoute.viaGo p r path
  | none => MatchRoute.viaGo p r path

/-- The inner loop of `MatchRoute` over the routes of `p`; `next` is the rest
of the outer loop. -/
def MatchRoute.routes (U : strings.CaseFolding) (p : PluginInstance m V) (method path : String)
    (next : m (Option V × Bool)) : List RouteDef → m (Option V × Bool)
  | [] => next
  | r :: rs =>
    if strings.EqualFold U r.Method method && r.Path == path then
      MatchRoute.invoke p r path >>= fun out =>
        match out with
        | some v => pure (some v, true)
        | none => MatchRoute.routes U p method path next rs
    else MatchRoute.routes U p method path next rs

/-- The function `MatchRoute(method, path)`; the result `(nil, false)` is `(none, false)`. -/
def MatchRoute (U : strings.CaseFolding) :
    List (PluginInstance m V) → String → String → m (Option V × Bool)
  | [], _, _ => pure (none, false)
  | p :: rest, method, path =>
    if !p.Meta.Active then MatchRoute U rest method path
    else MatchRoute.routes U p method path (MatchRoute U rest method path) p.Routes

end Dispatcher

/-- The inner loop of `GetActiveRoutes`. -/
def GetActiveRoutes.routes (paths : List String) : List RouteDef → List String
  | [] => paths
  | r :: rs =>
    if strings.ToUpper r.Method == "GET" && !strings.ContainsRune r.Path ':' then
      GetActiveRoutes.routes (paths ++ [r.Path]) rs
    else GetActiveRoutes.routes paths rs

/-- The outer loop of `GetActiveRoutes`, `paths` being the slice built so far. -/
def GetActiveRoutes.loop {m : Type → Type} {V : Type} (paths : List String) :
    List (PluginInstance m V) → List String
  | [] => paths
  | p :: rest =>
    if !p.Meta.Active then GetActiveRoutes.loop paths rest
    else GetActiveRoutes.loop (GetActiveRoutes.routes paths p.Routes) rest

/-- The function `GetActiveRoutes()`. -/
def GetActiveRoutes {m : Type → Type} {V : Type} (Instances : List (PluginInstance m V)) :
    List String :=
  GetActiveRoutes.loop [] Instances

/-- The function `GetAllPlugins()`. -/
def GetAllPlugins {m : Type → Type} {V : Type} (Instances : List (PluginInstance m V)) :
    List PluginMetadata :=
  Instances.map (fun p => p.Meta)

/-! ## Loader -/

/-- An `os.DirEntry`. -/
structure DirEntry where
  Name : String
  IsDir : Bool
  deriving DecidableEq, Repr

/-- What `vm.RunString(src)` does on a fresh runtime on which `loadJS` has
bound `PluginConfig`, `console` and `RegisterRoute`: the runtime after the
run, the routes the script passed to `RegisterRoute` (in call order, also
those registered before an error), whether an error was returned, and the
map `p.Config` after the run: `PluginConfig` is bound to the live map, which
the script may write to. -/
structure JsRun (m : Type → Type) (V : Type) where
  vm : JsRuntime m V
  registered : List RouteDef
  err : Bool
  config : GoMap String

/-- What `i.Eval(src)` does on a fresh interpreter on which `loadGo` has
exported `RegisterRoute`, `Log` and `GetConfig`: the interpreter after the
run, the routes registered, whether an error was returned, and the map
`p.Config` after the run: `GetConfig` returns the live map, which the plugin
may write to. -/
structure GoRun (m : Type → Type) (V : Type) where
  interp : GoInterp m V
  registered : List RouteDef
  err : Bool
  config : GoMap String

/-- The environment of the loader: file system, JSON decoder and the two
script engines. `ReadDir` and `ReadFile` are `none` on an error;
`Unmarshal data` is the `PluginMetadata` that `json.Unmarshal` decodes from
the manifest, `none` on an error; the engines get the Resolved Configuration
and the source text. -/
structure Env (m : Type → Type) (V : Type) where
  ReadDir : String → Option (List DirEntry)
  ReadFile : String → Option String
  Unmarshal : String → Option PluginMetadata
  RunString : GoMap String → String → JsRun m V
  Eval : GoMap String → String → GoRun m V

/-- The hook names both engines look for. -/
def hookNames : List String := ["OnContentRender", "OnMarkdown", "OnRequest", "OnResponse"]

section Loader

variable {m : Type → Type} [Monad m] [MonadExcept GoPanic m] {V : Type}

/-- The closure `registerJSHook` stores: `res, _ := fn(...)` then
`res.String()`, a nil dereference when `fn` returned an error. -/
def jsHook (fn : JsCallable m V) : String → m String :=
  fun input =>
    fn input >>= fun out =>
      match out with
      | .ok res => pure res.Text
      | .error _ => throw GoPanic.nilDereference

/-- The function `registerJSHook(vm, p, hookName)`. -/
def registerJSHook (vm : JsRuntime m V) (p : PluginInstance m V) (hookName : String) :
    PluginInstance m V :=
  match vm.Get hookName with
  | some fn => { p with Hooks := GoMap.set p.Hooks hookName (jsHook fn) }
  | none => p

/-- The function `loadJS(p, src)`: the instance `p` after the call. -/
def loadJS (env : Env m V) (p : PluginInstance m V) (src : String) : PluginInstance m V :=
  let run := env.RunString p.Config src
  let p := { p with JsVM := some run.vm }
  let p := { p with Routes := p.Routes ++ run.registered, Config := run.config }
  if run.err then p
  else hookNames.foldl (fun p h => registerJSHook run.vm p h) p

/-- The closure `registerGoHook` stores. -/
def goHook (v : GoFunc m V) : String → m String :=
  fun input =>
    v input >>= fun res =>
      match res with
      | res0 :: _ => pure res0.Text
      | [] => pure input

/-- The function `registerGoHook(i, p, hookName)`. -/
def registerGoHook (i : GoInterp m V) (p : PluginInstance m V) (hookName : String) :
    PluginInstance m V :=
  match i.Eval hookName with
  | some v => { p with Hooks := GoMap.set p.Hooks hookName (goHook v) }
  | none => p

/-- The function `loadGo(p, src)`: the instance `p` after the call. -/
def loadGo (env : Env m V) (p : PluginInstance m V) (src : String) : PluginInstance m V :=
  let run := env.Eval p.Config src
  let p := { p with GoInt := some run.interp }
  let p := { p with Routes := p.Routes ++ run.registered, Config := run.config }
  if run.err then p
  else hookNames.foldl (fun p h => registerGoHook run.interp p h) p

/-- The loop of `loadOne` that fills `configMap`. -/
def resolveConfig (configMap : GoMap String) : List PluginSetting → GoMap String
  | [] => configMap
  | s :: rest =>
    let val := if s.Value = "" then s.Default else s.Value
    resolveConfig (GoMap.set configMap s.Key val) rest

/-- The function `loadOne(dirName)`; `none` is the nil result. -/
def loadOne (env : Env m V) (dirName : String) : Option (PluginInstance m V) :=
  let basePath := "./plugins/" ++ dirName
  match env.ReadFile (basePath ++ "/plugin.json") with
  | none => none
  | some data =>
    match env.Unmarshal data with
    | none => none
    | some decoded =>
      let meta : PluginMetadata := { decoded with DirName := dirName }
      let configMap := resolveConfig [] meta.Settings
      let inst : PluginInstance m V :=
        { Meta := meta, Config := configMap, Hooks := [], Routes := [],
          JsVM := none, GoInt := none }
      if !meta.Active then some inst
      else
        let entryPath := filepath.Join basePath meta.Entry
        match env.ReadFile entryPath with
        | none => some inst
        | some src =>
          let ext := strings.ToLower (filepath.Ext meta.Entry)
          if ext = ".js" then some (loadJS env inst src)
          else if ext = ".go" then some (loadGo env inst src)
          else some inst

/-- The loop of `Init` over the directory entries. -/
def Init.scan (env : Env m V) (newInstances : GoMap (PluginInstance m V)) :
    List DirEntry → GoMap (PluginInstance m V)
  | [] => newInstances
  | entry :: rest =>
    if entry.IsDir then
      match loadOne env entry.Name with
      | some inst => Init.scan env (GoMap.set newInstances inst.Meta.ID inst) rest
      | none => Init.scan env newInstances rest
    else Init.scan env newInstances rest

/-- The function `Init()`, as a transition of the global `Instances`: the argument is the
registry before the call, the result the registry after it. -/
def Init (env : Env m V) (_Instances : GoMap (PluginInstance m V)) :
    GoMap (PluginInstance m V) :=
  match env.ReadDir "./plugins" with
  | some entries => Init.scan env [] entries
  | none => []

/-- The function `GetInstance(id)`. -/
def GetInstance (Instances : GoMap (PluginInstance m V)) (id : String) :
    Option (PluginInstance m V) :=
  GoMap.get Instances id

end Loader

/-! ## Archive extraction (`main.go`) -/

/-- Go `strings.HasPrefix`. -/
def strings.HasPrefix (s pre : String) : Bool := pre.data.isPrefixOf s.data

/-- Go `filepath.Dir` (Unix separator): the path up to its last separator,
cleaned. -/
def filepath.Dir (path : String) : String :=
  filepath.Clean (String.mk (path.data.reverse.dropWhile (fun c => c != '/')).reverse)

/-- A `*zip.File` as `Unzip` uses it: its name, `f.FileInfo().IsDir()`,
`f.Mode()`, and the content `f.Open()` gives to read, `none` when `f.Open()`
returns an error. -/
structure ZipFile where
  Name : String
  IsDir : Bool
  Mode : Nat
  Open : Option String
  deriving DecidableEq, Repr

/-- The environment of `Unzip`: `OpenReader src` is the list `r.File` of the
archive, `none` on an error; `MkdirAll path` and `OpenFile path mode` tell
whether the call succeeds. -/
structure Disk where
  OpenReader : String → Option (List ZipFile)
  MkdirAll : String → Bool
  OpenFile : String → Nat → Bool

/-- A call `Unzip` makes on the file system: `os.MkdirAll(path, ...)`,
`os.OpenFile(path, O_WRONLY|O_CREATE|O_TRUNC, mode)`, and
`io.Copy(outFile, rc)` into the file opened at `path`. -/
inductive FsOp where
  | MkdirAll (path : String)
  | OpenFile (path : String) (mode : Nat)
  | Copy (path : String) (content : String)
  deriving DecidableEq, Repr

/-- The error `Unzip` returns. -/
inductive UnzipError where
  | openReader
  | mkdirAll (path : String)
  | openFile (path : String)
  | entryOpen (name : String)
  deriving DecidableEq, Repr

/-- The loop of `Unzip` over `r.File`; `ops` are the file-system calls made so
far. The result is the calls made and the error returned, `none` for nil. -/
def Unzip.loop (disk : Disk) (dest : String) (ops : List FsOp) :
    List ZipFile → List FsOp × Option UnzipError
  | [] => (ops, none)
  | f :: rest =>
    let fpath := filepath.Join dest f.Name
    if !strings.HasPrefix fpath (filepath.Clean dest ++ "/") then
      Unzip.loop disk dest ops rest
    else if f.IsDir then
      Unzip.loop disk dest (ops ++ [FsOp.MkdirAll fpath]) rest
    else if !disk.MkdirAll (filepath.Dir fpath) then
      (ops ++ [FsOp.MkdirAll (filepath.Dir fpath)],
        some (UnzipError.mkdirAll (filepath.Dir fpath)))
    else if !disk.OpenFile fpath f.Mode then
      (ops ++ [FsOp.MkdirAll (filepath.Dir fpath), FsOp.OpenFile fpath f.Mode],
        some (UnzipError.openFile fpath))
    else
      match f.Open with
      | none =>
        (ops ++ [FsOp.MkdirAll (filepath.Dir fpath), FsOp.OpenFile fpath f.Mode],
          some (UnzipError.entryOpen f.Name))
      | some content =>
        Unzip.loop disk dest
          (ops ++ [FsOp.MkdirAll (filepath.Dir fpath), FsOp.OpenFile fpath f.Mode,
            FsOp.Copy fpath content]) rest

/-- The function `Unzip(src, dest)` of `main.go`: the file-system calls it
makes, in order, and the error it returns. -/
def Unzip (disk : Disk) (src dest : String) : List FsOp × Option UnzipError :=
  match disk.OpenReader src with
  | none => ([], some UnzipError.openReader)
  | some files => Unzip.loop disk dest [] files

/-! ## A monad that records what plugin code did -/

/-- A computation that returns `val` and has emitted the events `log`. -/
@[ext]
structure Logged (E : Type) (α : Type) where
  val : α
  log : List E

instance (E : Type) : Monad (Logged E) where
  pure a := { val := a, log := [] }
  bind x f := { val := (f x.val).val, log := x.log ++ (f x.val).log }

/-- A computation over a store `σ` that plugin code can read and write: it
returns a value and the store it leaves. The store stands for what stays
within reach of plugin code after the load, among it the Route Definitions of
its own instance, through `RegisterRoute`, and the shared configuration map. -/
structure Stored (σ : Type) (α : Type) where
  run : σ → α × σ

instance (σ : Type) : Monad (Stored σ) where
  pure a := { run := fun s => (a, s) }
  bind x f := { run := fun s => (f (x.run s).1).run (x.run s).2 }

/-! ## Specification-side definitions -/

/-- The hook named `hookName` of `p` as the dispatcher sees it: present when
`p` is active and its Hook Table has the name. -/
def activeHook {m : Type → Type} {V : Type} (hookName : String) (p : PluginInstance m V) :
    Option (String → m String) :=
  if p.Meta.Active then GoMap.get p.Hooks hookName else none

/-- The hooks named `hookName` of the active instances, in visiting order. -/
def activeHooks {m : Type → Type} {V : Type} (Instances : List (PluginInstance m V))
    (hookName : String) : List (String → m String) :=
  Instances.filterMap (activeHook hookName)

/-- The outcome the request filter should have on the `OnRequest` hooks
`hooks` (in visiting order): the hooks that return the empty string on `url`
are passed over, the first one that returns a non-empty string decides, and
only the hooks up to that one have run and left their events. -/
def requestOutcome {E : Type} (url : String) (hooks : List (String → Logged E String)) :
    Logged E (String × Bool) :=
  let skipped := hooks.takeWhile (fun g => (g url).val == "")
  match (hooks.dropWhile (fun g => (g url).val == "")).head? with
  | some h =>
    { val := ((h url).val, true),
      log := ((skipped ++ [h]).map (fun g => (g url).log)).flatten }
  | none =>
    { val := ("", false), log := (skipped.map (fun g => (g url).log)).flatten }

/-- The short-circuit chain over the `OnRequest` hooks `hooks`, in any monad
of plugin effects: each hook runs on `url` in turn until one returns a
non-empty string. -/
def firstNonEmpty {m : Type → Type} [Monad m] (url : String) :
    List (String → m String) → m (String × Bool)
  | [] => pure ("", false)
  | hook :: rest =>
    hook url >>= fun res =>
      if res ≠ "" then pure (res, true) else firstNonEmpty url rest

/-- Rune-wise equality up to the case of ASCII letters. -/
def asciiFoldRunes : List Char → List Char → Bool
  | [], [] => true
  | a :: s, b :: t => (a == b || a.toLower == b.toLower) && asciiFoldRunes s t
  | _, _ => false

/-- Equality of two strings up to the case of ASCII letters. -/
def asciiFoldEq (s t : String) : Bool := asciiFoldRunes s.data t.data

/-- Whether the route `r` answers the request `method path` in `MatchRoute`:
same method up to letter case, same path character for character. -/
def routeMatches (U : strings.CaseFolding) (method path : String) (r : RouteDef) : Prop :=
  strings.EqualFold U r.Method method = true ∧ r.Path = path

/-- A descriptor for the example plugins. -/
def exampleMeta (id entry : String) (active : Bool) : PluginMetadata :=
  { ID := id, Name := id, Version := "1.0", Description := "", Author := "",
    Entry := entry, Active := active, Settings := [], DirName := id }

/-- A JavaScript runtime whose only callable global is `showPost`. -/
def paramRuntime (m : Type → Type) [Monad m] : JsRuntime m String where
  Get name :=
    if name = "showPost" then
      some (fun path => pure (.ok { Export := "post at " ++ path, Text := "post" }))
    else none

/-- An active JavaScript plugin that registered exactly the route
`(GET, /post/:id)`, with the callable handler `showPost`. -/
def paramPlugin (m : Type → Type) [Monad m] : PluginInstance m String where
  Meta := exampleMeta "blog" "main.js" true
  Config := []
  Routes := [{ Method := "GET", Path := "/post/:id", HandlerName := "showPost" }]
  Hooks := []
  JsVM := some (paramRuntime m)
  GoInt := none

/-- A hook that appends `tag` to its input and records the input it saw. -/
def tagHook (tag : String) : String → Logged String String :=
  fun input => { val := input ++ tag, log := [tag ++ " saw " ++ input] }

/-- A hook that answers every request with `answer` and records the call. -/
def answerHook (answer : String) : String → Logged String String :=
  fun url => { val := answer, log := [answer ++ " saw " ++ url] }

/-- A plugin without engine and routes, with the Hook Table `hooks`. -/
def hookPlugin (id : String) (active : Bool) (hooks : GoMap (String → Logged String String)) :
    PluginInstance (Logged String) String where
  Meta := exampleMeta id "main.js" active
  Config := []
  Routes := []
  Hooks := hooks
  JsVM := none
  GoInt := none

/-- An inactive plugin that still carries a hook, a route and an engine. -/
def mutedPlugin : PluginInstance (Logged String) String where
  Meta := exampleMeta "muted" "main.js" false
  Config := []
  Routes := [{ Method := "GET", Path := "/post/:id", HandlerName := "showPost" }]
  Hooks := [("OnMarkdown", tagHook "[muted]"), ("OnRequest", answerHook "muted")]
  JsVM := some (paramRuntime (Logged String))
  GoInt := none

/-- The effective value of a setting: its current value if that is not
empty, its default value otherwise. -/
def effectiveValue (s : PluginSetting) : String :=
  if s.Value ≠ "" then s.Value else s.Default

/-- The last setting of `settings` declared with the key `k`. -/
def lastDeclared (settings : List PluginSetting) (k : String) : Option PluginSetting :=
  settings.reverse.find? (fun s => s.Key = k)

/-- The routes `GetActiveRoutes` should list: method `GET` up to letter case,
no parameter marker `:` in the path. -/
def sitemapRoute (r : RouteDef) : Bool :=
  asciiFoldEq r.Method "GET" && !strings.ContainsRune r.Path ':'

/-- A runtime or interpreter with no callable symbol. -/
def emptyRuntime : JsRuntime (Except GoPanic) String where
  Get _ := none

/-- An interpreter with no symbol of kind `Func`. -/
def emptyInterp : GoInterp (Except GoPanic) String where
  Eval _ := none

/-- An instance left in the registry by an earlier scan. -/
def stalePlugin : PluginInstance (Except GoPanic) String where
  Meta := exampleMeta "stale" "main.js" true
  Config := []
  Routes := []
  Hooks := []
  JsVM := none
  GoInt := none

/-- A setting of kind `text`. -/
def textSetting (key value default : String) : PluginSetting :=
  { Key := key, Label := key, Kind := "text", Value := value, Default := default,
    Options := [], Description := "" }

/-- The descriptor of an inactive plugin that declares the setting `color`
twice, without current value, and the setting `size` with one. -/
def notesMeta : PluginMetadata :=
  { ID := "notes", Name := "Notes", Version := "1.0", Description := "", Author := "",
    Entry := "notes.txt", Active := false,
    Settings := [textSetting "color" "" "red", textSetting "size" "12" "10",
      textSetting "color" "" "blue"],
    DirName := "" }

/-- A plugins root with three subdirectories. `broken` holds an active
JavaScript plugin whose script registers the route `(GET, /early)` and then
throws; `notes` holds an inactive plugin with two declarations of the setting
`color`; `stray` holds no manifest. -/
def exampleEnv : Env (Except GoPanic) String where
  ReadDir dir :=
    if dir = "./plugins" then
      some [{ Name := "broken", IsDir := true }, { Name := "stray", IsDir := true },
        { Name := "notes", IsDir := true }]
    else none
  ReadFile path :=
    if path = "./plugins/broken/plugin.json" then some "manifest of broken"
    else if path = "plugins/broken/main.js" then some "RegisterRoute(...); throw 1"
    else if path = "./plugins/notes/plugin.json" then some "manifest of notes"
    else none
  Unmarshal data :=
    if data = "manifest of broken" then some (exampleMeta "broken" "main.js" true)
    else if data = "manifest of notes" then some notesMeta
    else none
  RunString cfg _ :=
    { vm := emptyRuntime,
      registered := [{ Method := "GET", Path := "/early", HandlerName := "early" }],
      err := true, config := cfg }
  Eval cfg _ := { interp := emptyInterp, registered := [], err := true, config := cfg }

/-- The example root without the subdirectory `stray`. -/
def prunedEnv : Env (Except GoPanic) String :=
  { exampleEnv with
    ReadDir := fun dir =>
      if dir = "./plugins" then some [⟨"broken", true⟩, ⟨"notes", true⟩]
      else exampleEnv.ReadDir dir }

/-- The notification chain over the `OnResponse` hooks `hooks`, in any monad
of plugin effects: each hook runs once on `payload`, in order, and what it
returns is dropped. -/
def notifyAll {m : Type → Type} [Monad m] (payload : String) :
    List (String → m String) → m Unit
  | [] => pure ()
  | hook :: rest => hook payload >>= fun _ => notifyAll payload rest

/-- The short-circuit scan over the handler invocations `calls`, in any monad
of plugin effects: each invocation runs in turn until one yields a value;
`next` is what follows when none does. -/
def firstSuccess {m : Type → Type} [Monad m] {V : Type} (next : m (Option V × Bool)) :
    List (m (Option V)) → m (Option V × Bool)
  | [] => next
  | call :: rest =>
    call >>= fun out =>
      match out with
      | some v => pure (some v, true)
      | none => firstSuccess next rest

/-- The handler invocations `MatchRoute` may perform for the request
`method path`: one for each matching route, over the active instances in
visiting order and within an instance in registration order. -/
def routeCalls {m : Type → Type} [Monad m] {V : Type} (U : strings.CaseFolding)
    (Instances : List (PluginInstance m V))
    (method path : String) : List (m (Option V)) :=
  ((Instances.filter (fun p => p.Meta.Active)).map (fun p =>
    (p.Routes.filter (fun r => strings.EqualFold U r.Method method && r.Path == path)).map
      (fun r => MatchRoute.invoke p r path))).flatten

/-- A JavaScript runtime whose hooks `OnMarkdown` and `OnRequest` and whose
handler `Fail` throw when called. -/
def throwingRuntime : JsRuntime (Except GoPanic) String where
  Get name :=
    if name = "OnMarkdown" ∨ name = "OnRequest" ∨ name = "Fail" then
      some (fun _ => pure (.error "Error: boom"))
    else none

/-- A JavaScript runtime whose only callable global is the handler `Serve`. -/
def servingRuntime : JsRuntime (Except GoPanic) String where
  Get name :=
    if name = "Serve" then some (fun _ => pure (.ok { Export := "served", Text := "served" }))
    else none

/-- A Go interpreter whose hook `OnMarkdown` and whose handler `Fail` panic
when called, and whose hook `OnContentRender` returns no value. -/
def panickingInterp : GoInterp (Except GoPanic) String where
  Eval name :=
    if name = "OnMarkdown" ∨ name = "Fail" then some (fun _ => throw (GoPanic.other "boom"))
    else if name = "OnContentRender" then some (fun _ => pure [])
    else none

/-- The descriptor decoded from the manifests of `faultyEnv`. -/
def faultyManifest (data : String) : Option PluginMetadata :=
  if data = "manifest of jsfail" then some (exampleMeta "jsfail" "main.js" true)
  else if data = "manifest of gofail" then some (exampleMeta "gofail" "main.go" true)
  else if data = "manifest of jsok" then some (exampleMeta "jsok" "main.js" true)
  else none

/-- The files of `faultyEnv`. -/
def faultyFiles (path : String) : Option String :=
  if path = "./plugins/jsfail/plugin.json" then some "manifest of jsfail"
  else if path = "plugins/jsfail/main.js" then some "script of jsfail"
  else if path = "./plugins/gofail/plugin.json" then some "manifest of gofail"
  else if path = "plugins/gofail/main.go" then some "source of gofail"
  else if path = "./plugins/jsok/plugin.json" then some "manifest of jsok"
  else if path = "plugins/jsok/main.js" then some "script of jsok"
  else none

/-- A plugins root with three active plugins that load without error and
register a route for `GET /fail`: the hooks and the handler of `jsfail`
(JavaScript) throw when called, those of `gofail` (Go) panic when called, and
the handler of `jsok` (JavaScript) returns `served`. -/
def faultyEnv : Env (Except GoPanic) String where
  ReadDir dir :=
    if dir = "./plugins" then some [⟨"jsfail", true⟩, ⟨"gofail", true⟩, ⟨"jsok", true⟩]
    else none
  ReadFile := faultyFiles
  Unmarshal := faultyManifest
  RunString cfg src :=
    if src = "script of jsfail" then
      { vm := throwingRuntime,
        registered := [{ Method := "GET", Path := "/fail", HandlerName := "Fail" }],
        err := false, config := cfg }
    else
      { vm := servingRuntime,
        registered := [{ Method := "GET", Path := "/fail", HandlerName := "Serve" }],
        err := false, config := cfg }
  Eval cfg _ :=
    { interp := panickingInterp,
      registered := [{ Method := "GET", Path := "/fail", HandlerName := "Fail" }],
      err := false, config := cfg }

/-- The instance of identity `id` loaded from the subdirectory scanned last,
among the entries of the plugins root that are directories and whose manifest
is read and decoded. -/
def lastLoaded {m : Type → Type} [Monad m] [MonadExcept GoPanic m] {V : Type}
    (env : Env m V) (entries : List DirEntry) (id : String) : Option (PluginInstance m V) :=
  (entries.reverse.filterMap (fun e => if e.IsDir then loadOne env e.Name else none)).find?
    (fun inst => decide (inst.Meta.ID = id))

/-- A plugins root whose subdirectories `first` and `second` both declare the
identity `twin`, and whose subdirectory `anon` declares no identity. -/
def twinEnv : Env (Except GoPanic) String where
  ReadDir dir :=
    if dir = "./plugins" then some [⟨"first", true⟩, ⟨"anon", true⟩, ⟨"second", true⟩]
    else none
  ReadFile path :=
    if path = "./plugins/first/plugin.json" then some "manifest of twin"
    else if path = "./plugins/second/plugin.json" then some "manifest of twin"
    else if path = "./plugins/anon/plugin.json" then some "manifest without id"
    else none
  Unmarshal data :=
    if data = "manifest of twin" then some (exampleMeta "twin" "main.js" false)
    else if data = "manifest without id" then some (exampleMeta "" "main.js" false)
    else none
  RunString cfg _ := { vm := emptyRuntime, registered := [], err := false, config := cfg }
  Eval cfg _ := { interp := emptyInterp, registered := [], err := false, config := cfg }

/-- Whether `Unzip` extracts the archive entry `f` under `dest`: the joined
and cleaned path begins with the cleaned `dest` followed by the separator. -/
def staysInside (dest : String) (f : ZipFile) : Prop :=
  strings.HasPrefix (filepath.Join dest f.Name) (filepath.Clean dest ++ "/") = true

/-- The file-system calls `Unzip` may make for the archive entry `f`. -/
def callsFor (dest : String) (f : ZipFile) (op : FsOp) : Prop :=
  (f.IsDir = true ∧ op = FsOp.MkdirAll (filepath.Join dest f.Name)) ∨
  (f.IsDir = false ∧
    (op = FsOp.MkdirAll (filepath.Dir (filepath.Join dest f.Name)) ∨
      op = FsOp.OpenFile (filepath.Join dest f.Name) f.Mode ∨
      ∃ content, f.Open = some content ∧
        op = FsOp.Copy (filepath.Join dest f.Name) content))

/-- An uploaded archive with two entries that try to leave the destination,
one directory and one file. -/
def uploadDisk : Disk where
  OpenReader src :=
    if src = "./plugins/upload.zip" then
      some [{ Name := "../evil.js", IsDir := false, Mode := 420, Open := some "evil" },
        { Name := "demo/..", IsDir := true, Mode := 493, Open := none },
        { Name := "demo/", IsDir := true, Mode := 493, Open := none },
        { Name := "demo/main.js", IsDir := false, Mode := 420, Open := some "code" }]
    else none
  MkdirAll _ := true
  OpenFile _ _ := true

/-- A Go interpreter run that leaves the key `extra` in the configuration map
it got through `GetConfig`. -/
def meddlingRun (cfg : GoMap String) : GoRun (Except GoPanic) String :=
  { interp := emptyInterp, registered := [], err := false,
    config := GoMap.set cfg "extra" "1" }

/-- A plugins root with one active Go plugin, `meddler`, whose manifest
declares the single setting `color` and whose source, in its `init`, writes
the key `extra` into the map `GetConfig()` returns. -/
def meddlingEnv : Env (Except GoPanic) String where
  ReadDir dir := if dir = "./plugins" then some [⟨"meddler", true⟩] else none
  ReadFile path :=
    if path = "./plugins/meddler/plugin.json" then some "manifest of meddler"
    else if path = "plugins/meddler/main.go" then some "source of meddler"
    else none
  Unmarshal data :=
    if data = "manifest of meddler" then
      some { exampleMeta "meddler" "main.go" true with
        Settings := [textSetting "color" "" "red"] }
    else none
  RunString cfg _ := { vm := emptyRuntime, registered := [], err := false, config := cfg }
  Eval cfg _ := meddlingRun cfg

/-- The instance `p` without its routes whose path contains the parameter
marker `:`. -/
def withoutParamRoutes {m : Type → Type} {V : Type} (p : PluginInstance m V) :
    PluginInstance m V :=
  { p with Routes := p.Routes.filter (fun r => !strings.ContainsRune r.Path ':') }

/-- A fragment of the table of Unicode simple case folding, for the examples:
the two orbits that join ASCII letters with a rune outside ASCII, `K`, `k` and
the Kelvin sign U+212A, and `S`, `s` and the long s U+017F. -/
def sampleFolding : strings.CaseFolding where
  Folds lo hi :=
    ((lo == 'K' || lo == 'k') && hi == Char.ofNat 0x212A) ||
    ((lo == 'S' || lo == 's') && hi == Char.ofNat 0x17F)

/-- The Go function `ShowPost` of the example: it returns one value and
records its call. -/
def showPostFunc : GoFunc (Logged String) String :=
  fun path =>
    { val := [{ Interface := "post at " ++ path, Text := "post" }],
      log := ["ShowPost " ++ path] }

/-- A Go interpreter whose only symbol of kind `Func` is `ShowPost`. -/
def paramInterp : GoInterp (Logged String) String where
  Eval name := if name = "ShowPost" then some showPostFunc else none

/-- An active Go plugin that registered exactly the route `(GET, /post/:id)`,
with the handler `ShowPost`. -/
def paramGoPlugin : PluginInstance (Logged String) String where
  Meta := exampleMeta "goblog" "main.go" true
  Config := []
  Routes := [{ Method := "GET", Path := "/post/:id", HandlerName := "ShowPost" }]
  Hooks := []
  JsVM := none
  GoInt := some paramInterp

/-- A JavaScript runtime whose hook `OnResponse` throws when called. -/
def loudRuntime : JsRuntime (Except GoPanic) String where
  Get name := if name = "OnResponse" then some (fun _ => pure (.error "Error: boom")) else none

/-- A JavaScript runtime whose hook `OnResponse` returns `seen`. -/
def quietRuntime : JsRuntime (Except GoPanic) String where
  Get name :=
    if name = "OnResponse" then some (fun _ => pure (.ok { Export := "seen", Text := "seen" }))
    else none

/-- The files of `observerEnv`. -/
def observerFiles (path : String) : Option String :=
  if path = "./plugins/loud/plugin.json" then some "manifest of loud"
  else if path = "plugins/loud/main.js" then some "script of loud"
  else if path = "./plugins/quiet/plugin.json" then some "manifest of quiet"
  else if path = "plugins/quiet/main.js" then some "script of quiet"
  else none

/-- The descriptor decoded from the manifests of `observerEnv`. -/
def observerManifest (data : String) : Option PluginMetadata :=
  if data = "manifest of loud" then some (exampleMeta "loud" "main.js" true)
  else if data = "manifest of quiet" then some (exampleMeta "quiet" "main.js" true)
  else none

/-- A plugins root with two active JavaScript plugins that load without error
and export `OnResponse`: the hook of `loud` throws when called, the hook of
`quiet` returns a string. -/
def observerEnv : Env (Except GoPanic) String where
  ReadDir dir := if dir = "./plugins" then some [⟨"loud", true⟩, ⟨"quiet", true⟩] else none
  ReadFile := observerFiles
  Unmarshal := observerManifest
  RunString cfg src :=
    if src = "script of loud" then
      { vm := loudRuntime, registered := [], err := false, config := cfg }
    else { vm := quietRuntime, registered := [], err := false, config := cfg }
  Eval cfg _ := { interp := emptyInterp, registered := [], err := false, config := cfg }

/-! ## Auxiliary lemmas -/

theorem perm_pair_cases {α : Type} {a b : α} {l : List α} (h : l.Perm [a, b]) :
    l = [a, b] ∨ l = [b, a] := by
  have hlen : l.length = 2 := by simpa using h.length_eq
  match l, hlen with
  | [x, y], _ =>
    have hx : x ∈ [a, b] := h.subset (List.mem_cons_self x [y])
    simp only [List.mem_cons, List.mem_singleton, List.not_mem_nil, or_false] at hx
    rcases hx with rfl | rfl
    · have h2 : [y].Perm [b] := (List.perm_cons x).1 h
      rw [List.perm_singleton.1 h2]
      exact Or.inl rfl
    · have h1 : [x, y].Perm [x, a] := h.trans (List.Perm.swap x a [])
      have h2 : [y].Perm [a] := (List.perm_cons x).1 h1
      rw [List.perm_singleton.1 h2]
      exact Or.inr rfl

theorem ApplyFilter_eq_foldlM {m : Type → Type} [Monad m] {V : Type}
    (Instances : List (PluginInstance m V)) (hookName content : String) :
    ApplyFilter Instances hookName content =
      (activeHooks Instances hookName).foldlM (fun c hook => hook c) content := by
  induction Instances generalizing content with
  | nil => rfl
  | cons p rest ih =>
    unfold ApplyFilter
    by_cases hact : p.Meta.Active = true
    · cases hget : GoMap.get p.Hooks hookName with
      | none => simp [activeHooks, activeHook, hact, hget, ih]
      | some hook =>
        simp only [activeHooks, activeHook, hact, hget, if_true, List.filterMap_cons,
          List.foldlM_cons]
        congr 1
        funext c
        simpa [activeHooks, activeHook] using ih c
    · simp [activeHooks, activeHook, hact, ih]

theorem ApplyFilter_pair {E V : Type} (P1 P2 : PluginInstance (Logged E) V)
    (h1 h2 : String → Logged E String) (hookName x : String)
    (a1 : P1.Meta.Active = true) (a2 : P2.Meta.Active = true)
    (g1 : GoMap.get P1.Hooks hookName = some h1) (g2 : GoMap.get P2.Hooks hookName = some h2) :
    ApplyFilter [P1, P2] hookName x =
      { val := (h2 (h1 x).val).val, log := (h1 x).log ++ (h2 (h1 x).val).log } := by
  simp [ApplyFilter, a1, a2, g1, g2, bind, pure]

theorem requestOutcome_cons {E : Type} (url : String) (h : String → Logged E String)
    (hs : List (String → Logged E String)) :
    requestOutcome url (h :: hs) =
      if (h url).val = "" then
        { val := (requestOutcome url hs).val,
          log := (h url).log ++ (requestOutcome url hs).log }
      else { val := ((h url).val, true), log := (h url).log } := by
  by_cases hv : (h url).val = ""
  · simp only [requestOutcome, hv, beq_self_eq_true, List.takeWhile_cons_of_pos,
      List.dropWhile_cons_of_pos, if_true]
    cases (List.dropWhile (fun g => (g url).val == "") hs).head? <;> simp
  · simp [requestOutcome, hv, List.takeWhile_cons, List.dropWhile_cons]

theorem ApplyRequestFilter_eq_outcome {E V : Type}
    (Instances : List (PluginInstance (Logged E) V)) (url : String) :
    ApplyRequestFilter Instances url = requestOutcome url (activeHooks Instances "OnRequest") := by
  induction Instances with
  | nil => rfl
  | cons p rest ih =>
    unfold ApplyRequestFilter
    by_cases hact : p.Meta.Active = true
    · cases hget : GoMap.get p.Hooks "OnRequest" with
      | none => simp [activeHooks, activeHook, hact, hget, ih]
      | some hook =>
        have hcons : activeHooks (p :: rest) "OnRequest" =
            hook :: activeHooks rest "OnRequest" := by
          simp [activeHooks, activeHook, hact, hget]
        rw [hcons, requestOutcome_cons, ← ih]
        by_cases hv : (hook url).val = ""
        · simp [hact, hv, bind]
        · simp [hact, hv, bind, pure]
    · simp [activeHooks, activeHook, hact, ih]

theorem ApplyRequestFilter_eq_firstNonEmpty {m : Type → Type} [Monad m] {V : Type}
    (Instances : List (PluginInstance m V)) (url : String) :
    ApplyRequestFilter Instances url =
      firstNonEmpty url (activeHooks Instances "OnRequest") := by
  induction Instances with
  | nil => rfl
  | cons p rest ih =>
    unfold ApplyRequestFilter
    by_cases hact : p.Meta.Active = true
    · cases hget : GoMap.get p.Hooks "OnRequest" with
      | none => simp [activeHooks, activeHook, hact, hget, ih]
      | some hook =>
        simp only [activeHooks, activeHook, hact, hget, if_true, List.filterMap_cons,
          firstNonEmpty]
        rw [ih]
        rfl
    · simp [activeHooks, activeHook, hact, ih]

theorem requestOutcome_nonempty_iff {E : Type} (url : String)
    (hooks : List (String → Logged E String)) :
    (requestOutcome url hooks).val.1 ≠ "" ↔ (requestOutcome url hooks).val.2 = true := by
  induction hooks with
  | nil => simp [requestOutcome]
  | cons h hs ih =>
    rw [requestOutcome_cons]
    by_cases hv : (h url).val = ""
    · simpa [hv] using ih
    · simp [hv]

theorem ApplyRequestFilter_pair {E V : Type} (P1 P2 : PluginInstance (Logged E) V)
    (h1 : String → Logged E String) (url : String)
    (a1 : P1.Meta.Active = true) (g1 : GoMap.get P1.Hooks "OnRequest" = some h1)
    (n1 : (h1 url).val ≠ "") :
    ApplyRequestFilter [P1, P2] url = { val := ((h1 url).val, true), log := (h1 url).log } := by
  simp [ApplyRequestFilter, a1, g1, n1, bind, pure]

theorem MatchRoute.routes_no_match {m : Type → Type} [Monad m] {V : Type}
    (U : strings.CaseFolding)
    (p : PluginInstance m V) (method path : String) (next : m (Option V × Bool))
    (rs : List RouteDef) (h : ∀ r ∈ rs, ¬ routeMatches U method path r) :
    MatchRoute.routes U p method path next rs = next := by
  induction rs with
  | nil => rfl
  | cons r rs ih =>
    have hr : ¬ routeMatches U method path r := h r (List.mem_cons_self r rs)
    have hcond : (strings.EqualFold U r.Method method && r.Path == path) = false := by
      cases hfold : strings.EqualFold U r.Method method with
      | false => simp
      | true =>
        have hne : r.Path ≠ path := fun heq => hr ⟨hfold, heq⟩
        simp [hne]
    unfold MatchRoute.routes
    rw [hcond]
    exact ih (fun r' hr' => h r' (List.mem_cons_of_mem r hr'))

theorem MatchRoute_no_match {m : Type → Type} [Monad m] {V : Type}
    (U : strings.CaseFolding)
    (Instances : List (PluginInstance m V)) (method path : String)
    (h : ∀ p ∈ Instances, p.Meta.Active = true →
      ∀ r ∈ p.Routes, ¬ routeMatches U method path r) :
    MatchRoute U Instances method path = pure (none, false) := by
  induction Instances with
  | nil => rfl
  | cons p rest ih =>
    have ih := ih (fun q hq => h q (List.mem_cons_of_mem p hq))
    unfold MatchRoute
    by_cases hact : p.Meta.Active = true
    · simp only [hact, Bool.not_true, Bool.false_eq_true, if_false]
      rw [MatchRoute.routes_no_match U p method path _ p.Routes
        (h p (List.mem_cons_self p rest) hact), ih]
    · simp [hact, ih]

theorem MatchRoute_found_has_route {E V : Type} (U : strings.CaseFolding)
    (Instances : List (PluginInstance (Logged E) V)) (method path : String)
    (hfound : (MatchRoute U Instances method path).val.2 = true) :
    ∃ p ∈ Instances, p.Meta.Active = true ∧
      ∃ r ∈ p.Routes, routeMatches U method path r := by
  by_contra hno
  have hall : ∀ p ∈ Instances, p.Meta.Active = true →
      ∀ r ∈ p.Routes, ¬ routeMatches U method path r := by
    intro p hp hact r hr hm
    exact hno ⟨p, hp, hact, r, hr, hm⟩
  rw [MatchRoute_no_match U Instances method path hall] at hfound
  simp [pure] at hfound

theorem ApplyFilter_skip_inactive {m : Type → Type} [Monad m] {V : Type}
    (before after : List (PluginInstance m V)) (p : PluginInstance m V)
    (hp : p.Meta.Active = false) (hookName content : String) :
    ApplyFilter (before ++ p :: after) hookName content =
      ApplyFilter (before ++ after) hookName content := by
  induction before generalizing content with
  | nil => simp [ApplyFilter, hp]
  | cons q rest ih =>
    rw [List.cons_append, List.cons_append]
    simp only [ApplyFilter]
    have hfun : (fun c => ApplyFilter (rest ++ p :: after) hookName c) =
        (fun c => ApplyFilter (rest ++ after) hookName c) := funext ih
    rw [ih content, hfun]

theorem ApplyRequestFilter_skip_inactive {m : Type → Type} [Monad m] {V : Type}
    (before after : List (PluginInstance m V)) (p : PluginInstance m V)
    (hp : p.Meta.Active = false) (url : String) :
    ApplyRequestFilter (before ++ p :: after) url = ApplyRequestFilter (before ++ after) url := by
  induction before with
  | nil => simp [ApplyRequestFilter, hp]
  | cons q rest ih =>
    rw [List.cons_append, List.cons_append]
    simp only [ApplyRequestFilter]
    rw [ih]

theorem MatchRoute_skip_inactive {m : Type → Type} [Monad m] {V : Type}
    (U : strings.CaseFolding)
    (before after : List (PluginInstance m V)) (p : PluginInstance m V)
    (hp : p.Meta.Active = false) (method path : String) :
    MatchRoute U (before ++ p :: after) method path = MatchRoute U (before ++ after) method path := by
  induction before with
  | nil => simp [MatchRoute, hp]
  | cons q rest ih =>
    rw [List.cons_append, List.cons_append]
    simp only [MatchRoute]
    rw [ih]

theorem GetActiveRoutes.loop_skip_inactive {m : Type → Type} {V : Type}
    (before after : List (PluginInstance m V)) (p : PluginInstance m V)
    (hp : p.Meta.Active = false) (paths : List String) :
    GetActiveRoutes.loop paths (before ++ p :: after) =
      GetActiveRoutes.loop paths (before ++ after) := by
  induction before generalizing paths with
  | nil => simp [GetActiveRoutes.loop, hp]
  | cons q rest ih =>
    rw [List.cons_append, List.cons_append]
    simp only [GetActiveRoutes.loop]
    rw [ih, ih]

theorem ApplyFilter_no_active_hook {m : Type → Type} [Monad m] {V : Type}
    (Instances : List (PluginInstance m V)) (hookName content : String)
    (h : ∀ p ∈ Instances, GoMap.get p.Hooks hookName ≠ none → p.Meta.Active = false) :
    ApplyFilter Instances hookName content = pure content := by
  induction Instances with
  | nil => rfl
  | cons p rest ih =>
    have ih := ih (fun q hq => h q (List.mem_cons_of_mem p hq))
    unfold ApplyFilter
    by_cases hact : p.Meta.Active = true
    · cases hget : GoMap.get p.Hooks hookName with
      | none => simp [hact, ih]
      | some hook =>
        have := h p (List.mem_cons_self p rest) (by simp [hget])
        simp [hact] at this
    · simp [hact, ih]

theorem GoMap.get_set {α : Type} (mp : GoMap α) (k k' : String) (v : α) :
    GoMap.get (GoMap.set mp k v) k' = if k = k' then some v else GoMap.get mp k' := by
  induction mp with
  | nil => simp [GoMap.set, GoMap.get]
  | cons e rest ih =>
    obtain ⟨k0, v0⟩ := e
    by_cases h0 : k0 = k
    · subst h0
      by_cases h1 : k0 = k' <;> simp [GoMap.set, GoMap.get, h1]
    · by_cases h1 : k = k'
      · subst h1
        simp [GoMap.set, GoMap.get, h0, ih]
      · by_cases h2 : k0 = k'
        · subst h2
          simp [GoMap.set, GoMap.get, h0, h1]
        · simp [GoMap.set, GoMap.get, h0, h1, h2, ih]

theorem GoMap.mem_keys_set {α : Type} (mp : GoMap α) (k k' : String) (v : α) :
    k' ∈ GoMap.keys (GoMap.set mp k v) ↔ k' = k ∨ k' ∈ GoMap.keys mp := by
  induction mp with
  | nil => simp [GoMap.set, GoMap.keys]
  | cons e rest ih =>
    obtain ⟨k0, v0⟩ := e
    simp only [GoMap.keys] at ih
    by_cases h0 : k0 = k
    · subst h0
      simp [GoMap.set, GoMap.keys]
    · simp only [GoMap.set, h0, if_false, GoMap.keys, List.map_cons, List.mem_cons, ih]
      tauto

theorem GoMap.nodup_keys_set {α : Type} (mp : GoMap α) (k : String) (v : α)
    (h : (GoMap.keys mp).Nodup) : (GoMap.keys (GoMap.set mp k v)).Nodup := by
  induction mp with
  | nil => simp [GoMap.set, GoMap.keys]
  | cons e rest ih =>
    obtain ⟨k0, v0⟩ := e
    have hcons : (k0 :: GoMap.keys rest).Nodup := h
    rw [List.nodup_cons] at hcons
    by_cases h0 : k0 = k
    · subst h0
      simpa [GoMap.set, GoMap.keys] using h
    · have hrest := ih hcons.2
      have hnot : k0 ∉ GoMap.keys (GoMap.set rest k v) := by
        rw [GoMap.mem_keys_set]
        rintro (h1 | h1)
        · exact h0 h1
        · exact hcons.1 h1
      have : (k0 :: GoMap.keys (GoMap.set rest k v)).Nodup := List.nodup_cons.2 ⟨hnot, hrest⟩
      simpa [GoMap.set, h0, GoMap.keys] using this

theorem effectiveValue_eq (s : PluginSetting) :
    (if s.Value = "" then s.Default else s.Value) = effectiveValue s := by
  unfold effectiveValue
  by_cases h : s.Value = "" <;> simp [h]

theorem resolveConfig_get (configMap : GoMap String) (settings : List PluginSetting)
    (k : String) :
    GoMap.get (resolveConfig configMap settings) k =
      match lastDeclared settings k with
      | some s => some (effectiveValue s)
      | none => GoMap.get configMap k := by
  induction settings generalizing configMap with
  | nil => simp [resolveConfig, lastDeclared]
  | cons s rest ih =>
    have hlast : lastDeclared (s :: rest) k =
        (lastDeclared rest k).or (if s.Key = k then some s else none) := by
      simp only [lastDeclared, List.reverse_cons, List.find?_append]
      congr 1
      by_cases hk : s.Key = k <;> simp [List.find?, hk]
    simp only [resolveConfig]
    rw [ih, hlast, effectiveValue_eq]
    cases hrest : lastDeclared rest k with
    | some t => simp
    | none =>
      by_cases hk : s.Key = k <;> simp [GoMap.get_set, hk]

theorem resolveConfig_mem_keys (configMap : GoMap String) (settings : List PluginSetting)
    (k : String) :
    k ∈ GoMap.keys (resolveConfig configMap settings) ↔
      k ∈ GoMap.keys configMap ∨ ∃ s ∈ settings, s.Key = k := by
  induction settings generalizing configMap with
  | nil => simp [resolveConfig]
  | cons s rest ih =>
    simp only [resolveConfig]
    rw [ih, GoMap.mem_keys_set]
    simp only [List.mem_cons, exists_eq_or_imp]
    constructor
    · rintro ((h | h) | h)
      · exact Or.inr (Or.inl h.symm)
      · exact Or.inl h
      · exact Or.inr (Or.inr h)
    · rintro (h | h | h)
      · exact Or.inl (Or.inr h)
      · exact Or.inl (Or.inl h.symm)
      · exact Or.inr h

theorem resolveConfig_nodup (configMap : GoMap String) (settings : List PluginSetting)
    (h : (GoMap.keys configMap).Nodup) :
    (GoMap.keys (resolveConfig configMap settings)).Nodup := by
  induction settings generalizing configMap with
  | nil => simpa [resolveConfig] using h
  | cons s rest ih =>
    simp only [resolveConfig]
    exact ih _ (GoMap.nodup_keys_set configMap _ _ h)

theorem Char.toUpper_eq_iff_fold (c u : Char) (hu : u = 'G' ∨ u = 'E' ∨ u = 'T') :
    c.toUpper = u ↔ (c == u || c.toLower == u.toLower) = true := by
  have hc : c = Char.ofNat c.toNat := (Char.ofNat_toNat c).symm
  by_cases hlow : 97 ≤ c.toNat ∧ c.toNat ≤ 122
  · obtain ⟨h1, h2⟩ := hlow
    generalize c.toNat = n at hc h1 h2
    subst hc
    interval_cases n <;> rcases hu with rfl | rfl | rfl <;> decide
  · by_cases hup : 65 ≤ c.toNat ∧ c.toNat ≤ 90
    · obtain ⟨h1, h2⟩ := hup
      generalize c.toNat = n at hc h1 h2
      subst hc
      interval_cases n <;> rcases hu with rfl | rfl | rfl <;> decide
    · have hU : c.toUpper = c := by simp [Char.toUpper, hlow]
      have hL : c.toLower = c := by simp [Char.toLower, hup]
      rw [hU, hL]
      have hne1 : c ≠ u := by
        rintro rfl
        apply hup
        rcases hu with rfl | rfl | rfl <;> decide
      have hne2 : c ≠ u.toLower := by
        rintro rfl
        apply hlow
        rcases hu with rfl | rfl | rfl <;> decide
      simp [hne1, hne2]

theorem strings.ToUpper_eq_GET_iff (s : String) :
    strings.ToUpper s = "GET" ↔ asciiFoldEq s "GET" = true := by
  obtain ⟨l⟩ := s
  have hmk : ∀ l' : List Char, String.mk l' = "GET" ↔ l' = ['G', 'E', 'T'] := by
    intro l'
    constructor
    · intro h
      exact congrArg String.data h
    · intro h
      rw [h]
  simp only [strings.ToUpper, asciiFoldEq, hmk]
  show List.map Char.toUpper l = ['G', 'E', 'T'] ↔
    asciiFoldRunes l ['G', 'E', 'T'] = true
  match l with
  | [] => simp [asciiFoldRunes]
  | [a] => simp [asciiFoldRunes]
  | [a, b] => simp [asciiFoldRunes]
  | [a, b, c] =>
    simp only [List.map_cons, List.map_nil, List.cons.injEq, and_true, asciiFoldRunes,
      Bool.and_eq_true, Bool.and_true]
    rw [Char.toUpper_eq_iff_fold a 'G' (by simp), Char.toUpper_eq_iff_fold b 'E' (by simp),
      Char.toUpper_eq_iff_fold c 'T' (by simp)]
  | a :: b :: c :: d :: rest => simp [asciiFoldRunes]

theorem GetActiveRoutes.routes_eq (paths : List String) (rs : List RouteDef) :
    GetActiveRoutes.routes paths rs =
      paths ++ (rs.filter sitemapRoute).map (fun r => r.Path) := by
  induction rs generalizing paths with
  | nil => simp [GetActiveRoutes.routes]
  | cons r rest ih =>
    have hcond : (strings.ToUpper r.Method == "GET" && !strings.ContainsRune r.Path ':') =
        sitemapRoute r := by
      unfold sitemapRoute
      congr 1
      rw [Bool.eq_iff_iff, beq_iff_eq]
      exact strings.ToUpper_eq_GET_iff r.Method
    unfold GetActiveRoutes.routes
    rw [hcond]
    by_cases hr : sitemapRoute r = true
    · simp [hr, ih]
    · simp [hr, ih]

theorem GetActiveRoutes.loop_eq {m : Type → Type} {V : Type} (paths : List String)
    (Instances : List (PluginInstance m V)) :
    GetActiveRoutes.loop paths Instances =
      paths ++ ((Instances.filter (fun p => p.Meta.Active)).map
        (fun p => (p.Routes.filter sitemapRoute).map (fun r => r.Path))).flatten := by
  induction Instances generalizing paths with
  | nil => simp [GetActiveRoutes.loop]
  | cons p rest ih =>
    unfold GetActiveRoutes.loop
    by_cases hact : p.Meta.Active = true
    · simp [hact, ih, GetActiveRoutes.routes_eq]
    · simp [hact, ih]

section LoaderLemmas

variable {m : Type → Type} [Monad m] [MonadExcept GoPanic m] {V : Type}

theorem registerJSHook_fields (vm : JsRuntime m V) (p : PluginInstance m V) (h : String) :
    (registerJSHook vm p h).Meta = p.Meta ∧ (registerJSHook vm p h).Config = p.Config ∧
    (registerJSHook vm p h).Routes = p.Routes ∧ (registerJSHook vm p h).JsVM = p.JsVM ∧
    (registerJSHook vm p h).GoInt = p.GoInt := by
  unfold registerJSHook
  cases vm.Get h <;> simp

omit [MonadExcept GoPanic m] in
theorem registerGoHook_fields (i : GoInterp m V) (p : PluginInstance m V) (h : String) :
    (registerGoHook i p h).Meta = p.Meta ∧ (registerGoHook i p h).Config = p.Config ∧
    (registerGoHook i p h).Routes = p.Routes ∧ (registerGoHook i p h).JsVM = p.JsVM ∧
    (registerGoHook i p h).GoInt = p.GoInt := by
  unfold registerGoHook
  cases i.Eval h <;> simp

omit [Monad m] [MonadExcept GoPanic m] in
theorem foldl_fields (f : PluginInstance m V → String → PluginInstance m V)
    (hf : ∀ p h, (f p h).Meta = p.Meta ∧ (f p h).Config = p.Config ∧
      (f p h).Routes = p.Routes ∧ (f p h).JsVM = p.JsVM ∧ (f p h).GoInt = p.GoInt)
    (names : List String) (p : PluginInstance m V) :
    (names.foldl f p).Meta = p.Meta ∧ (names.foldl f p).Config = p.Config ∧
    (names.foldl f p).Routes = p.Routes ∧ (names.foldl f p).JsVM = p.JsVM ∧
    (names.foldl f p).GoInt = p.GoInt := by
  induction names generalizing p with
  | nil => simp
  | cons n rest ih =>
    obtain ⟨h1, h2, h3, h4, h5⟩ := ih (f p n)
    obtain ⟨g1, g2, g3, g4, g5⟩ := hf p n
    simp only [List.foldl_cons]
    exact ⟨h1.trans g1, h2.trans g2, h3.trans g3, h4.trans g4, h5.trans g5⟩

theorem loadJS_fields (env : Env m V) (p : PluginInstance m V) (src : String) :
    (loadJS env p src).Meta = p.Meta ∧
    (loadJS env p src).Config = (env.RunString p.Config src).config ∧
    (loadJS env p src).Routes = p.Routes ++ (env.RunString p.Config src).registered ∧
    (loadJS env p src).JsVM = some (env.RunString p.Config src).vm ∧
    (loadJS env p src).GoInt = p.GoInt ∧
    ((env.RunString p.Config src).err = true → (loadJS env p src).Hooks = p.Hooks) := by
  unfold loadJS
  by_cases herr : (env.RunString p.Config src).err = true
  · simp [herr]
  · have hf : (env.RunString p.Config src).err = false := by simpa using herr
    simp only [hf, Bool.false_eq_true, if_false]
    obtain ⟨h1, h2, h3, h4, h5⟩ := foldl_fields
      (fun q h => registerJSHook (env.RunString p.Config src).vm q h)
      (fun q h => registerJSHook_fields _ q h) hookNames
      { p with JsVM := some (env.RunString p.Config src).vm,
               Routes := p.Routes ++ (env.RunString p.Config src).registered,
               Config := (env.RunString p.Config src).config }
    exact ⟨h1, h2, h3, h4, h5, fun h => absurd h (by simp)⟩

omit [MonadExcept GoPanic m] in
theorem loadGo_fields (env : Env m V) (p : PluginInstance m V) (src : String) :
    (loadGo env p src).Meta = p.Meta ∧
    (loadGo env p src).Config = (env.Eval p.Config src).config ∧
    (loadGo env p src).Routes = p.Routes ++ (env.Eval p.Config src).registered ∧
    (loadGo env p src).JsVM = p.JsVM ∧
    (loadGo env p src).GoInt = some (env.Eval p.Config src).interp ∧
    ((env.Eval p.Config src).err = true → (loadGo env p src).Hooks = p.Hooks) := by
  unfold loadGo
  by_cases herr : (env.Eval p.Config src).err = true
  · simp [herr]
  · have hf : (env.Eval p.Config src).err = false := by simpa using herr
    simp only [hf, Bool.false_eq_true, if_false]
    obtain ⟨h1, h2, h3, h4, h5⟩ := foldl_fields
      (fun q h => registerGoHook (env.Eval p.Config src).interp q h)
      (fun q h => registerGoHook_fields _ q h) hookNames
      { p with GoInt := some (env.Eval p.Config src).interp,
               Routes := p.Routes ++ (env.Eval p.Config src).registered,
               Config := (env.Eval p.Config src).config }
    exact ⟨h1, h2, h3, h4, h5, fun h => absurd h (by simp)⟩

/-- The descriptor of the instance `loadOne` returns for a manifest that is
read and decoded. -/
theorem loadOne_some (env : Env m V) (dirName data : String) (decoded : PluginMetadata)
    (hread : env.ReadFile ("./plugins/" ++ dirName ++ "/plugin.json") = some data)
    (hparse : env.Unmarshal data = some decoded) :
    ∃ inst, loadOne env dirName = some inst ∧
      inst.Meta = { decoded with DirName := dirName } := by
  unfold loadOne
  simp only [hread, hparse]
  by_cases hact : decoded.Active = true
  · simp only [hact, Bool.not_true, Bool.false_eq_true, if_false]
    cases env.ReadFile (filepath.Join ("./plugins/" ++ dirName) decoded.Entry) with
    | none => exact ⟨_, rfl, rfl⟩
    | some src =>
      by_cases hjs : strings.ToLower (filepath.Ext decoded.Entry) = ".js"
      · simp only [hjs, if_true]
        obtain ⟨h1, -⟩ := loadJS_fields env
          ({ Meta := { decoded with DirName := dirName },
             Config := resolveConfig [] decoded.Settings, Hooks := [], Routes := [],
             JsVM := none, GoInt := none } : PluginInstance m V) src
        simp only [hact] at h1
        exact ⟨_, rfl, h1⟩
      · simp only [hjs, if_false]
        by_cases hgo : strings.ToLower (filepath.Ext decoded.Entry) = ".go"
        · simp only [hgo, if_true]
          obtain ⟨h1, -⟩ := loadGo_fields env
            ({ Meta := { decoded with DirName := dirName },
               Config := resolveConfig [] decoded.Settings, Hooks := [], Routes := [],
               JsVM := none, GoInt := none } : PluginInstance m V) src
          simp only [hact] at h1
          exact ⟨_, rfl, h1⟩
        · simp only [hgo, if_false]
          exact ⟨_, rfl, rfl⟩
  · simp only [hact, Bool.not_false, if_true]
    exact ⟨_, rfl, rfl⟩

theorem loadOne_none_of_unreadable (env : Env m V) (dirName : String)
    (hread : env.ReadFile ("./plugins/" ++ dirName ++ "/plugin.json") = none) :
    loadOne env dirName = none := by
  unfold loadOne
  simp only [hread]

theorem loadOne_none_of_unparsable (env : Env m V) (dirName data : String)
    (hread : env.ReadFile ("./plugins/" ++ dirName ++ "/plugin.json") = some data)
    (hparse : env.Unmarshal data = none) :
    loadOne env dirName = none := by
  unfold loadOne
  simp only [hread, hparse]

end LoaderLemmas

section InitLemmas

variable {m : Type → Type} [Monad m] [MonadExcept GoPanic m] {V : Type}

theorem Init.scan_get_isSome (env : Env m V) (acc : GoMap (PluginInstance m V))
    (entries : List DirEntry) (id : String) :
    (GoMap.get (Init.scan env acc entries) id).isSome = true ↔
      (GoMap.get acc id).isSome = true ∨
      ∃ e ∈ entries, e.IsDir = true ∧
        ∃ inst, loadOne env e.Name = some inst ∧ inst.Meta.ID = id := by
  induction entries generalizing acc with
  | nil => simp [Init.scan]
  | cons e rest ih =>
    unfold Init.scan
    by_cases hdir : e.IsDir = true
    · cases hload : loadOne env e.Name with
      | none => simp [hdir, hload, ih]
      | some inst =>
        simp only [hdir, if_true, ih, GoMap.get_set, List.mem_cons, exists_eq_or_imp, hload,
          Option.some.injEq, exists_eq_left', true_and]
        by_cases hid : inst.Meta.ID = id
        · simp [hid]
        · simp [hid]
    · simp [hdir, ih]

theorem Init.scan_skip (env : Env m V) (acc : GoMap (PluginInstance m V))
    (before after : List DirEntry) (e : DirEntry)
    (hbad : e.IsDir = false ∨ loadOne env e.Name = none) :
    Init.scan env acc (before ++ e :: after) = Init.scan env acc (before ++ after) := by
  induction before generalizing acc with
  | nil =>
    rcases hbad with h | h
    · simp [Init.scan, h]
    · by_cases hdir : e.IsDir = true <;> simp [Init.scan, h, hdir]
  | cons d rest ih =>
    rw [List.cons_append, List.cons_append]
    simp only [Init.scan]
    split
    · split <;> exact ih _
    · exact ih _

theorem loadOne_isSome_iff (env : Env m V) (dirName id : String) :
    (∃ inst, loadOne env dirName = some inst ∧ inst.Meta.ID = id) ↔
      ∃ data decoded, env.ReadFile ("./plugins/" ++ dirName ++ "/plugin.json") = some data ∧
        env.Unmarshal data = some decoded ∧ decoded.ID = id := by
  cases hread : env.ReadFile ("./plugins/" ++ dirName ++ "/plugin.json") with
  | none => simp [loadOne_none_of_unreadable env dirName hread]
  | some data =>
    cases hparse : env.Unmarshal data with
    | none => simp [loadOne_none_of_unparsable env dirName data hread hparse, hparse]
    | some decoded =>
      obtain ⟨inst, hinst, hmeta⟩ := loadOne_some env dirName data decoded hread hparse
      simp [hinst, hmeta, hparse]

end InitLemmas

theorem ApplyResponseFilter_eq_notifyAll {m : Type → Type} [Monad m] {V : Type}
    (encode : List (String × String) → String) (Instances : List (PluginInstance m V))
    (url html : String) :
    ApplyResponseFilter encode Instances url html =
      notifyAll (encode (responsePayload url html)) (activeHooks Instances "OnResponse") := by
  induction Instances with
  | nil => rfl
  | cons p rest ih =>
    unfold ApplyResponseFilter
    by_cases hact : p.Meta.Active = true
    · cases hget : GoMap.get p.Hooks "OnResponse" with
      | none => simp [activeHooks, activeHook, hact, hget, ih]
      | some hook =>
        simp only [activeHooks, activeHook, hact, hget, if_true, List.filterMap_cons,
          notifyAll]
        rw [ih]
        rfl
    · simp [activeHooks, activeHook, hact, ih]

theorem notifyAll_logged {E : Type} (payload : String)
    (hooks : List (String → Logged E String)) :
    notifyAll payload hooks =
      { val := (), log := (hooks.map (fun hook => (hook payload).log)).flatten } := by
  induction hooks with
  | nil => rfl
  | cons hook rest ih =>
    simp only [notifyAll, ih, bind, List.map_cons, List.flatten_cons]

theorem firstSuccess_append {m : Type → Type} [Monad m] {V : Type}
    (next : m (Option V × Bool)) (calls more : List (m (Option V))) :
    firstSuccess next (calls ++ more) = firstSuccess (firstSuccess next more) calls := by
  induction calls with
  | nil => rfl
  | cons call rest ih =>
    rw [List.cons_append]
    simp only [firstSuccess]
    rw [ih]

theorem MatchRoute.routes_eq_firstSuccess {m : Type → Type} [Monad m] {V : Type}
    (U : strings.CaseFolding)
    (p : PluginInstance m V) (method path : String) (next : m (Option V × Bool))
    (rs : List RouteDef) :
    MatchRoute.routes U p method path next rs =
      firstSuccess next
        ((rs.filter (fun r => strings.EqualFold U r.Method method && r.Path == path)).map
          (fun r => MatchRoute.invoke p r path)) := by
  induction rs with
  | nil => rfl
  | cons r rest ih =>
    unfold MatchRoute.routes
    by_cases hm : (strings.EqualFold U r.Method method && r.Path == path) = true
    · simp only [hm, if_true, List.filter_cons_of_pos, List.map_cons, firstSuccess]
      rw [ih]
    · have hf : (strings.EqualFold U r.Method method && r.Path == path) = false :=
        Bool.eq_false_iff.2 hm
      simp only [hf, if_false, Bool.false_eq_true, List.filter_cons]
      rw [ih]

theorem MatchRoute_eq_firstSuccess {m : Type → Type} [Monad m] {V : Type}
    (U : strings.CaseFolding)
    (Instances : List (PluginInstance m V)) (method path : String) :
    MatchRoute U Instances method path =
      firstSuccess (pure (none, false)) (routeCalls U Instances method path) := by
  induction Instances with
  | nil => rfl
  | cons p rest ih =>
    unfold MatchRoute
    by_cases hact : p.Meta.Active = true
    · simp only [hact, Bool.not_true, Bool.false_eq_true, if_false]
      rw [MatchRoute.routes_eq_firstSuccess, ih]
      simp only [routeCalls, hact, List.filter_cons_of_pos, List.map_cons, List.flatten_cons]
      rw [firstSuccess_append]
    · have hf : p.Meta.Active = false := by simpa using hact
      simp only [hf, Bool.not_false, if_true]
      rw [ih]
      simp [routeCalls, hf]

theorem GoMap.mem_set {α : Type} (mp : GoMap α) (k : String) (v : α) (e : String × α)
    (he : e ∈ GoMap.set mp k v) : e = (k, v) ∨ e ∈ mp := by
  induction mp with
  | nil =>
    simp only [GoMap.set, List.mem_singleton] at he
    exact Or.inl he
  | cons e0 rest ih =>
    obtain ⟨k0, v0⟩ := e0
    by_cases h0 : k0 = k
    · simp only [GoMap.set, h0, if_true, List.mem_cons] at he
      rcases he with he | he
      · exact Or.inl he
      · exact Or.inr (List.mem_cons_of_mem _ he)
    · simp only [GoMap.set, h0, if_false, List.mem_cons] at he
      rcases he with he | he
      · exact Or.inr (by rw [he]; exact List.mem_cons_self _ _)
      · rcases ih he with h | h
        · exact Or.inl h
        · exact Or.inr (List.mem_cons_of_mem _ h)

theorem GoMap.mem_of_get {α : Type} (mp : GoMap α) (k : String) (v : α)
    (h : GoMap.get mp k = some v) : (k, v) ∈ mp := by
  induction mp with
  | nil => simp [GoMap.get] at h
  | cons e0 rest ih =>
    obtain ⟨k0, v0⟩ := e0
    by_cases h0 : k0 = k
    · simp only [GoMap.get, h0, if_true, Option.some.injEq] at h
      rw [h0, h]
      exact List.mem_cons_self _ _
    · simp only [GoMap.get, h0, if_false] at h
      exact List.mem_cons_of_mem _ (ih h)

section RegistryLemmas

variable {m : Type → Type} [Monad m] [MonadExcept GoPanic m] {V : Type}

theorem Init.scan_keyed (env : Env m V) (acc : GoMap (PluginInstance m V))
    (entries : List DirEntry) (hacc : ∀ e ∈ acc, e.2.Meta.ID = e.1) :
    ∀ e ∈ Init.scan env acc entries, e.2.Meta.ID = e.1 := by
  induction entries generalizing acc with
  | nil => simpa [Init.scan] using hacc
  | cons d rest ih =>
    unfold Init.scan
    split
    · split
      · rename_i inst _
        apply ih
        intro e he
        rcases GoMap.mem_set acc inst.Meta.ID inst e he with h | h
        · rw [h]
        · exact hacc e h
      · exact ih acc hacc
    · exact ih acc hacc

theorem Init.scan_nodup (env : Env m V) (acc : GoMap (PluginInstance m V))
    (entries : List DirEntry) (hacc : (GoMap.keys acc).Nodup) :
    (GoMap.keys (Init.scan env acc entries)).Nodup := by
  induction entries generalizing acc with
  | nil => simpa [Init.scan] using hacc
  | cons d rest ih =>
    unfold Init.scan
    split
    · split
      · exact ih _ (GoMap.nodup_keys_set acc _ _ hacc)
      · exact ih acc hacc
    · exact ih acc hacc

theorem Init.scan_get (env : Env m V) (acc : GoMap (PluginInstance m V))
    (entries : List DirEntry) (id : String) :
    GoMap.get (Init.scan env acc entries) id =
      (lastLoaded env entries id).or (GoMap.get acc id) := by
  induction entries generalizing acc with
  | nil => simp [Init.scan, lastLoaded]
  | cons d rest ih =>
    have hlast : lastLoaded env (d :: rest) id =
        (lastLoaded env rest id).or
          (((if d.IsDir then loadOne env d.Name else none).toList).find?
            (fun inst => decide (inst.Meta.ID = id))) := by
      simp only [lastLoaded, List.reverse_cons, List.filterMap_append, List.find?_append]
      congr 1
    unfold Init.scan
    rw [hlast]
    by_cases hdir : d.IsDir = true
    · cases hload : loadOne env d.Name with
      | none =>
        simp only [hdir, if_true, ih, hload]
        cases lastLoaded env rest id <;> simp
      | some inst =>
        simp only [hdir, if_true, ih, hload, GoMap.get_set]
        cases lastLoaded env rest id with
        | some q => simp
        | none =>
          by_cases hid : inst.Meta.ID = id <;> simp [hid, List.find?]
    · simp only [hdir, if_false, Bool.false_eq_true, ih]
      cases lastLoaded env rest id <;> simp

end RegistryLemmas

section WellFormedLemmas

variable {m : Type → Type} [Monad m] [MonadExcept GoPanic m] {V : Type}

theorem registerJSHook_keys (vm : JsRuntime m V) (p : PluginInstance m V) (h k : String)
    (hk : k ∈ GoMap.keys (registerJSHook vm p h).Hooks) : k = h ∨ k ∈ GoMap.keys p.Hooks := by
  unfold registerJSHook at hk
  cases hget : vm.Get h with
  | none =>
    rw [hget] at hk
    exact Or.inr hk
  | some fn =>
    rw [hget] at hk
    exact (GoMap.mem_keys_set p.Hooks h k _).1 hk

omit [MonadExcept GoPanic m] in
theorem registerGoHook_keys (i : GoInterp m V) (p : PluginInstance m V) (h k : String)
    (hk : k ∈ GoMap.keys (registerGoHook i p h).Hooks) : k = h ∨ k ∈ GoMap.keys p.Hooks := by
  unfold registerGoHook at hk
  cases hget : i.Eval h with
  | none =>
    rw [hget] at hk
    exact Or.inr hk
  | some v =>
    rw [hget] at hk
    exact (GoMap.mem_keys_set p.Hooks h k _).1 hk

omit [Monad m] [MonadExcept GoPanic m] in
theorem foldl_keys (f : PluginInstance m V → String → PluginInstance m V)
    (hf : ∀ p h k, k ∈ GoMap.keys (f p h).Hooks → k = h ∨ k ∈ GoMap.keys p.Hooks)
    (names : List String) (p : PluginInstance m V) (k : String)
    (hk : k ∈ GoMap.keys (names.foldl f p).Hooks) : k ∈ names ∨ k ∈ GoMap.keys p.Hooks := by
  induction names generalizing p with
  | nil => exact Or.inr hk
  | cons n rest ih =>
    rw [List.foldl_cons] at hk
    rcases ih (f p n) hk with h | h
    · exact Or.inl (List.mem_cons_of_mem _ h)
    · rcases hf p n k h with h' | h'
      · exact Or.inl (by rw [h']; exact List.mem_cons_self _ _)
      · exact Or.inr h'

theorem loadJS_keys (env : Env m V) (p : PluginInstance m V) (src k : String)
    (hk : k ∈ GoMap.keys (loadJS env p src).Hooks) : k ∈ hookNames ∨ k ∈ GoMap.keys p.Hooks := by
  unfold loadJS at hk
  by_cases herr : (env.RunString p.Config src).err = true
  · simp only [herr, if_true] at hk
    exact Or.inr hk
  · have hf : (env.RunString p.Config src).err = false := by simpa using herr
    simp only [hf, Bool.false_eq_true, if_false] at hk
    have hfold := foldl_keys (fun q h => registerJSHook (env.RunString p.Config src).vm q h)
      (fun q h k' hk' => registerJSHook_keys _ q h k' hk') hookNames _ k hk
    exact hfold

omit [MonadExcept GoPanic m] in
theorem loadGo_keys (env : Env m V) (p : PluginInstance m V) (src k : String)
    (hk : k ∈ GoMap.keys (loadGo env p src).Hooks) : k ∈ hookNames ∨ k ∈ GoMap.keys p.Hooks := by
  unfold loadGo at hk
  by_cases herr : (env.Eval p.Config src).err = true
  · simp only [herr, if_true] at hk
    exact Or.inr hk
  · have hf : (env.Eval p.Config src).err = false := by simpa using herr
    simp only [hf, Bool.false_eq_true, if_false] at hk
    have hfold := foldl_keys (fun q h => registerGoHook (env.Eval p.Config src).interp q h)
      (fun q h k' hk' => registerGoHook_keys _ q h k' hk') hookNames _ k hk
    exact hfold

/-- The three ways `loadOne` builds the instance it returns. -/
theorem loadOne_cases (env : Env m V) (dirName : String) (inst : PluginInstance m V)
    (h : loadOne env dirName = some inst) :
    ∃ decoded : PluginMetadata,
      (inst = { Meta := { decoded with DirName := dirName },
                Config := resolveConfig [] decoded.Settings,
                Hooks := [], Routes := [], JsVM := none, GoInt := none }) ∨
      (decoded.Active = true ∧ strings.ToLower (filepath.Ext decoded.Entry) = ".js" ∧
        ∃ src, inst = loadJS env
          { Meta := { decoded with DirName := dirName },
            Config := resolveConfig [] decoded.Settings,
            Hooks := [], Routes := [], JsVM := none, GoInt := none } src) ∨
      (decoded.Active = true ∧ strings.ToLower (filepath.Ext decoded.Entry) = ".go" ∧
        ∃ src, inst = loadGo env
          { Meta := { decoded with DirName := dirName },
            Config := resolveConfig [] decoded.Settings,
            Hooks := [], Routes := [], JsVM := none, GoInt := none } src) := by
  unfold loadOne at h
  cases hread : env.ReadFile ("./plugins/" ++ dirName ++ "/plugin.json") with
  | none => simp [hread] at h
  | some data =>
    cases hparse : env.Unmarshal data with
    | none => simp [hread, hparse] at h
    | some decoded =>
      refine ⟨decoded, ?_⟩
      simp only [hread, hparse] at h
      by_cases hact : decoded.Active = true
      · cases hsrc : env.ReadFile (filepath.Join ("./plugins/" ++ dirName) decoded.Entry) with
        | none =>
          simp only [hact, hsrc, Bool.not_true, Bool.false_eq_true, if_false,
            Option.some.injEq] at h
          left
          rw [← h, hact]
        | some src =>
          by_cases hjs : strings.ToLower (filepath.Ext decoded.Entry) = ".js"
          · simp only [hact, hsrc, hjs, Bool.not_true, Bool.false_eq_true, if_false, if_true,
              Option.some.injEq] at h
            right
            left
            exact ⟨hact, hjs, src, by rw [← h, hact]⟩
          · by_cases hgo : strings.ToLower (filepath.Ext decoded.Entry) = ".go"
            · have hne : (".go" : String) ≠ ".js" := by decide
              simp only [hact, hsrc, hgo, hne, Bool.not_true, Bool.false_eq_true, if_false,
                if_true, Option.some.injEq] at h
              right
              right
              exact ⟨hact, hgo, src, by rw [← h, hact]⟩
            · simp only [hact, hsrc, hjs, hgo, Bool.not_true, Bool.false_eq_true, if_false,
                Option.some.injEq] at h
              left
              rw [← h, hact]
      · have hf : decoded.Active = false := by simpa using hact
        simp only [hf, Bool.not_false, if_true, Option.some.injEq] at h
        left
        rw [← h, hf]

end WellFormedLemmas

theorem Unzip.loop_ops (disk : Disk) (dest : String) (files : List ZipFile)
    (ops : List FsOp) (op : FsOp) (hop : op ∈ (Unzip.loop disk dest ops files).1) :
    op ∈ ops ∨ ∃ f ∈ files, staysInside dest f ∧ callsFor dest f op := by
  induction files generalizing ops with
  | nil => exact Or.inl hop
  | cons f rest ih =>
    have lift : (op ∈ ops ∨ ∃ g ∈ rest, staysInside dest g ∧ callsFor dest g op) →
        op ∈ ops ∨ ∃ g ∈ f :: rest, staysInside dest g ∧ callsFor dest g op := by
      rintro (h | ⟨g, hg, hin⟩)
      · exact Or.inl h
      · exact Or.inr ⟨g, List.mem_cons_of_mem _ hg, hin⟩
    unfold Unzip.loop at hop
    by_cases hin : strings.HasPrefix (filepath.Join dest f.Name)
        (filepath.Clean dest ++ "/") = true
    · have here : ∀ o, callsFor dest f o →
          op = o → op ∈ ops ∨ ∃ g ∈ f :: rest, staysInside dest g ∧ callsFor dest g op := by
        intro o ho heq
        rw [heq]
        exact Or.inr ⟨f, List.mem_cons_self _ _, hin, ho⟩
      simp only [hin, Bool.not_true, Bool.false_eq_true, if_false] at hop
      by_cases hdir : f.IsDir = true
      · simp only [hdir, if_true] at hop
        rcases ih _ hop with h | h
        · rcases List.mem_append.1 h with h' | h'
          · exact Or.inl h'
          · exact here _ (Or.inl ⟨hdir, rfl⟩) (List.mem_singleton.1 h')
        · exact lift (Or.inr h)
      · have hfile : f.IsDir = false := by simpa using hdir
        have c1 : callsFor dest f
            (FsOp.MkdirAll (filepath.Dir (filepath.Join dest f.Name))) :=
          Or.inr ⟨hfile, Or.inl rfl⟩
        have c2 : callsFor dest f (FsOp.OpenFile (filepath.Join dest f.Name) f.Mode) :=
          Or.inr ⟨hfile, Or.inr (Or.inl rfl)⟩
        simp only [hfile, Bool.false_eq_true, if_false] at hop
        by_cases hmk : disk.MkdirAll (filepath.Dir (filepath.Join dest f.Name)) = true
        · simp only [hmk, Bool.not_true, Bool.false_eq_true, if_false] at hop
          by_cases hof : disk.OpenFile (filepath.Join dest f.Name) f.Mode = true
          · simp only [hof, Bool.not_true, Bool.false_eq_true, if_false] at hop
            cases hopen : f.Open with
            | none =>
              simp only [hopen, List.mem_append, List.mem_cons, List.mem_singleton,
                List.not_mem_nil, or_false] at hop
              rcases hop with h | h | h
              · exact Or.inl h
              · exact here _ c1 h
              · exact here _ c2 h
            | some content =>
              simp only [hopen] at hop
              rcases ih _ hop with h | h
              · simp only [List.mem_append, List.mem_cons, List.mem_singleton,
                  List.not_mem_nil, or_false] at h
                rcases h with h | h | h | h
                · exact Or.inl h
                · exact here _ c1 h
                · exact here _ c2 h
                · exact here _ (Or.inr ⟨hfile, Or.inr (Or.inr ⟨content, hopen, rfl⟩)⟩) h
              · exact lift (Or.inr h)
          · have hof' : disk.OpenFile (filepath.Join dest f.Name) f.Mode = false := by
              simpa using hof
            simp only [hof', Bool.not_false, if_true, List.mem_append, List.mem_cons,
              List.mem_singleton, List.not_mem_nil, or_false] at hop
            rcases hop with h | h | h
            · exact Or.inl h
            · exact here _ c1 h
            · exact here _ c2 h
        · have hmk' : disk.MkdirAll (filepath.Dir (filepath.Join dest f.Name)) = false := by
            simpa using hmk
          simp only [hmk', Bool.not_false, if_true, List.mem_append, List.mem_singleton] at hop
          rcases hop with h | h
          · exact Or.inl h
          · exact here _ c1 h
    · have hout : strings.HasPrefix (filepath.Join dest f.Name)
          (filepath.Clean dest ++ "/") = false := by simpa using hin
      simp only [hout, Bool.not_false, if_true] at hop
      exact lift (ih _ hop)

theorem Unzip.loop_skip (disk : Disk) (dest : String) (before after : List ZipFile)
    (f : ZipFile) (ops : List FsOp)
    (hout : strings.HasPrefix (filepath.Join dest f.Name) (filepath.Clean dest ++ "/") = false) :
    Unzip.loop disk dest ops (before ++ f :: after) =
      Unzip.loop disk dest ops (before ++ after) := by
  induction before generalizing ops with
  | nil => simp [Unzip.loop, hout]
  | cons g rest ih =>
    rw [List.cons_append, List.cons_append]
    simp only [Unzip.loop, ih]

theorem MatchRoute.routes_filter {m : Type → Type} [Monad m] {V : Type}
    (U : strings.CaseFolding) (p q : PluginInstance m V) (method path : String)
    (next : m (Option V × Bool)) (keep : RouteDef → Bool) (rs : List RouteDef)
    (hinv : ∀ r, MatchRoute.invoke p r path = MatchRoute.invoke q r path)
    (hdrop : ∀ r ∈ rs, keep r = false → ¬ routeMatches U method path r) :
    MatchRoute.routes U p method path next rs =
      MatchRoute.routes U q method path next (rs.filter keep) := by
  induction rs with
  | nil => rfl
  | cons r rest ih =>
    have ih := ih (fun r' hr' => hdrop r' (List.mem_cons_of_mem r hr'))
    by_cases hk : keep r = true
    · rw [List.filter_cons_of_pos hk]
      simp only [MatchRoute.routes, hinv r, ih]
    · have hkf : keep r = false := by simpa using hk
      have hr : ¬ routeMatches U method path r := hdrop r (List.mem_cons_self r rest) hkf
      have hcond : (strings.EqualFold U r.Method method && r.Path == path) = false := by
        cases hfold : strings.EqualFold U r.Method method with
        | false => simp
        | true =>
          have hne : r.Path ≠ path := fun heq => hr ⟨hfold, heq⟩
          simp [hne]
      rw [List.filter_cons_of_neg hk, ← ih]
      simp only [MatchRoute.routes, hcond, Bool.false_eq_true, if_false]

theorem MatchRoute_drop_routes {m : Type → Type} [Monad m] {V : Type}
    (U : strings.CaseFolding) (keep : RouteDef → Bool)
    (Instances : List (PluginInstance m V)) (method path : String)
    (hdrop : ∀ r, keep r = false → ¬ routeMatches U method path r) :
    MatchRoute U Instances method path =
      MatchRoute U (Instances.map (fun p => { p with Routes := p.Routes.filter keep }))
        method path := by
  induction Instances with
  | nil => rfl
  | cons p rest ih =>
    rw [List.map_cons]
    simp only [MatchRoute]
    rw [← ih, MatchRoute.routes_filter U p { p with Routes := p.Routes.filter keep } method path
      _ keep p.Routes (fun _ => rfl) (fun r _ hk => hdrop r hk)]

theorem notifyAll_stored {σ : Type} (payload : String)
    (hooks : List (String → Stored σ String)) (s : σ) :
    (notifyAll payload hooks).run s =
      ((), hooks.foldl (fun st hook => ((hook payload).run st).2) s) := by
  induction hooks generalizing s with
  | nil => rfl
  | cons hook rest ih =>
    simp only [notifyAll, bind, List.foldl_cons]
    exact ih _

/-! ## Theorems -/

/-- C1: `ApplyFilter` chains hooks. In every monad of plugin effects the call
is the fold of the content through the `hookName` hooks of the active
instances that have one, in visiting order, each hook run once on the output
of the one before. For a registry of exactly two active plugins that both
have the hook, visited in either order, the result is `P2.hook (P1.hook x)`
or `P1.hook (P2.hook x)`, and the events recorded are those of both hooks,
the second one run on the output of the first. -/
theorem ApplyFilter_chains_hooks :
    (∀ (m : Type → Type) [Monad m] (V : Type) (Instances : List (PluginInstance m V))
        (hookName content : String),
        ApplyFilter Instances hookName content =
          (activeHooks Instances hookName).foldlM (fun c hook => hook c) content) ∧
    (∀ (E V : Type) (P1 P2 : PluginInstance (Logged E) V)
        (h1 h2 : String → Logged E String) (Instances : List (PluginInstance (Logged E) V))
        (x : String),
        P1.Meta.Active = true → P2.Meta.Active = true →
        GoMap.get P1.Hooks "OnMarkdown" = some h1 →
        GoMap.get P2.Hooks "OnMarkdown" = some h2 →
        Instances.Perm [P1, P2] →
        ApplyFilter Instances "OnMarkdown" x =
            { val := (h2 (h1 x).val).val, log := (h1 x).log ++ (h2 (h1 x).val).log } ∨
        ApplyFilter Instances "OnMarkdown" x =
            { val := (h1 (h2 x).val).val, log := (h2 x).log ++ (h1 (h2 x).val).log }) := by
  refine ⟨fun m _ V Instances hookName content =>
    ApplyFilter_eq_foldlM Instances hookName content, ?_⟩
  intro E V P1 P2 h1 h2 Instances x a1 a2 g1 g2 hperm
  rcases perm_pair_cases hperm with rfl | rfl
  · exact Or.inl (ApplyFilter_pair P1 P2 h1 h2 "OnMarkdown" x a1 a2 g1 g2)
  · exact Or.inr (ApplyFilter_pair P2 P1 h2 h1 "OnMarkdown" x a2 a1 g2 g1)

/-- C2: `ApplyRequestFilter` short-circuits. In every monad of plugin effects
the call runs the `OnRequest` hooks of the active instances in visiting
order, each on `url`, until one returns a non-empty string. With plugins
that leave a trace of their calls, the call passes over the active
`OnRequest` hooks that return the empty string on `url`, returns `(r, true)`
for the first hook that returns a non-empty `r`, and `("", false)` when there
is none; the events recorded are those of the hooks up to the deciding one,
so no hook after it has run. The returned string is non-empty exactly when
`intercepted` is true, and with two plugins whose hooks return `"A"` and
`"B"` the result is `("A", true)` with only the first hook run, or
`("B", true)` with only the second one run. -/
theorem ApplyRequestFilter_short_circuits :
    (∀ (m : Type → Type) [Monad m] (V : Type) (Instances : List (PluginInstance m V))
        (url : String),
        ApplyRequestFilter Instances url =
          firstNonEmpty url (activeHooks Instances "OnRequest")) ∧
    (∀ (E V : Type) (Instances : List (PluginInstance (Logged E) V)) (url : String),
        ApplyRequestFilter Instances url =
          requestOutcome url (activeHooks Instances "OnRequest") ∧
        ((ApplyRequestFilter Instances url).val.1 ≠ "" ↔
          (ApplyRequestFilter Instances url).val.2 = true)) ∧
    (∀ (E V : Type) (P1 P2 : PluginInstance (Logged E) V)
        (h1 h2 : String → Logged E String) (Instances : List (PluginInstance (Logged E) V))
        (url : String),
        P1.Meta.Active = true → P2.Meta.Active = true →
        GoMap.get P1.Hooks "OnRequest" = some h1 →
        GoMap.get P2.Hooks "OnRequest" = some h2 →
        (h1 url).val = "A" → (h2 url).val = "B" →
        Instances.Perm [P1, P2] →
        ApplyRequestFilter Instances url = { val := ("A", true), log := (h1 url).log } ∨
        ApplyRequestFilter Instances url = { val := ("B", true), log := (h2 url).log }) := by
  refine ⟨fun m _ V Instances url => ApplyRequestFilter_eq_firstNonEmpty Instances url,
    fun E V Instances url => ⟨ApplyRequestFilter_eq_outcome Instances url, ?_⟩, ?_⟩
  · rw [ApplyRequestFilter_eq_outcome]
    exact requestOutcome_nonempty_iff url _
  · intro E V P1 P2 h1 h2 Instances url a1 a2 g1 g2 v1 v2 hperm
    rcases perm_pair_cases hperm with rfl | rfl
    · left
      rw [ApplyRequestFilter_pair P1 P2 h1 url a1 g1 (by rw [v1]; decide), v1]
    · right
      rw [ApplyRequestFilter_pair P2 P1 h2 url a2 g2 (by rw [v2]; decide), v2]

/-- Witness of C1: two tagging plugins, both orders of visit. -/
theorem ApplyFilter_chains_hooks_witness :
    ApplyFilter [hookPlugin "a" true [("OnMarkdown", tagHook "[a]")],
        hookPlugin "b" true [("OnMarkdown", tagHook "[b]")]] "OnMarkdown" "x" =
      { val := (tagHook "[b]" (tagHook "[a]" "x").val).val,
        log := (tagHook "[a]" "x").log ++ (tagHook "[b]" (tagHook "[a]" "x").val).log } ∨
    ApplyFilter [hookPlugin "a" true [("OnMarkdown", tagHook "[a]")],
        hookPlugin "b" true [("OnMarkdown", tagHook "[b]")]] "OnMarkdown" "x" =
      { val := (tagHook "[a]" (tagHook "[b]" "x").val).val,
        log := (tagHook "[b]" "x").log ++ (tagHook "[a]" (tagHook "[b]" "x").val).log } :=
  ApplyFilter_chains_hooks.2 String String
    (hookPlugin "a" true [("OnMarkdown", tagHook "[a]")])
    (hookPlugin "b" true [("OnMarkdown", tagHook "[b]")])
    (tagHook "[a]") (tagHook "[b]") _ "x" rfl rfl rfl rfl (List.Perm.refl _)

/-- Witness of C2: two answering plugins. -/
theorem ApplyRequestFilter_short_circuits_witness :
    ApplyRequestFilter [hookPlugin "a" true [("OnRequest", answerHook "A")],
        hookPlugin "b" true [("OnRequest", answerHook "B")]] "/x" =
      { val := ("A", true), log := (answerHook "A" "/x").log } ∨
    ApplyRequestFilter [hookPlugin "a" true [("OnRequest", answerHook "A")],
        hookPlugin "b" true [("OnRequest", answerHook "B")]] "/x" =
      { val := ("B", true), log := (answerHook "B" "/x").log } :=
  ApplyRequestFilter_short_circuits.2.2 String String
    (hookPlugin "a" true [("OnRequest", answerHook "A")])
    (hookPlugin "b" true [("OnRequest", answerHook "B")])
    (answerHook "A") (answerHook "B") _ "/x" rfl rfl rfl rfl rfl rfl (List.Perm.refl _)

/-- C3: route exactness. `MatchRoute` reports `found = true` only if some
active plugin registered a route whose method equals the request method under
`strings.EqualFold` (letter case ignored, by Unicode simple case folding) and
whose path equals the request path character for character: without such a
route the call is `(nil, false)` and runs no plugin code. When every
registered route has the path `/foo`, the request paths `/foo/` and `/fo` are
not found. -/
theorem MatchRoute_route_exactness :
    (∀ (U : strings.CaseFolding) (m : Type → Type) [Monad m] (V : Type)
        (Instances : List (PluginInstance m V)) (method path : String),
        (∀ p ∈ Instances, p.Meta.Active = true →
          ∀ r ∈ p.Routes, ¬ (strings.EqualFold U r.Method method = true ∧ r.Path = path)) →
        MatchRoute U Instances method path = pure (none, false)) ∧
    (∀ (U : strings.CaseFolding) (E V : Type) (Instances : List (PluginInstance (Logged E) V))
        (method path : String),
        (MatchRoute U Instances method path).val.2 = true →
        ∃ p ∈ Instances, p.Meta.Active = true ∧
          ∃ r ∈ p.Routes, strings.EqualFold U r.Method method = true ∧ r.Path = path) ∧
    (∀ (U : strings.CaseFolding) (m : Type → Type) [Monad m] (V : Type)
        (Instances : List (PluginInstance m V)) (method : String),
        (∀ p ∈ Instances, ∀ r ∈ p.Routes, r.Path = "/foo") →
        MatchRoute U Instances method "/foo/" = pure (none, false) ∧
        MatchRoute U Instances method "/fo" = pure (none, false)) := by
  refine ⟨fun U m _ V Instances method path h => MatchRoute_no_match U Instances method path h,
    fun U E V Instances method path h => MatchRoute_found_has_route U Instances method path h,
    ?_⟩
  intro U m _ V Instances method hfoo
  constructor
  · apply MatchRoute_no_match
    intro p hp _ r hr hm
    have h1 := hfoo p hp r hr
    have h2 := hm.2
    rw [h1] at h2
    exact absurd h2 (by decide)
  · apply MatchRoute_no_match
    intro p hp _ r hr hm
    have h1 := hfoo p hp r hr
    have h2 := hm.2
    rw [h1] at h2
    exact absurd h2 (by decide)

/-- Witness of C3: a plugin whose only route is `(GET, /foo)`; and, for the
fold of letter case, a plugin whose only route is `(POST, /foo)`, found by the
method `poſt` written with the long s. -/
theorem MatchRoute_route_exactness_witness :
    (MatchRoute sampleFolding [({ paramPlugin Id with
        Routes := [{ Method := "GET", Path := "/foo", HandlerName := "showPost" }] } :
        PluginInstance Id String)] "GET" "/foo/" = pure (none, false) ∧
      MatchRoute sampleFolding [({ paramPlugin Id with
        Routes := [{ Method := "GET", Path := "/foo", HandlerName := "showPost" }] } :
        PluginInstance Id String)] "GET" "/fo" = pure (none, false)) ∧
    Id.run (MatchRoute sampleFolding [({ paramPlugin Id with
        Routes := [{ Method := "POST", Path := "/foo", HandlerName := "showPost" }] } :
        PluginInstance Id String)] "poſt" "/foo") = (some "post at /foo", true) :=
  ⟨MatchRoute_route_exactness.2.2 sampleFolding Id String _ "GET" (by
    intro p hp r hr
    simp only [List.mem_singleton] at hp
    subst hp
    simp only [List.mem_singleton] at hr
    subst hr
    rfl), by decide⟩

/-- Counterexample to C4: the plugin registered exactly `(GET, /post/:id)`
with a callable handler, and `MatchRoute("GET", "/post/:id")` runs the handler
and reports `found = true`, whatever the table of case folding. -/
theorem MatchRoute_param_route_found :
    (paramPlugin Id).Meta.Active = true ∧
    (paramPlugin Id).Routes =
      [{ Method := "GET", Path := "/post/:id", HandlerName := "showPost" }] ∧
    (∀ U : strings.CaseFolding,
      Id.run (MatchRoute U [paramPlugin Id] "GET" "/post/:id") =
        (some "post at /post/:id", true)) :=
  ⟨rfl, rfl, fun _ => rfl⟩

/-- C4, amended: a route whose path contains `:` is matched as a literal
string only. For a registry whose active plugin registered exactly the route
`(GET, /post/:id)` with a handler whose invocation through the engine of the
plugin succeeds with a value, `MatchRoute("GET", "/post/:id")` returns that
value and `found = true` after running that handler, for a JavaScript plugin
and for a Go plugin alike. There is no pattern matching: for a request path
without `:` the routes whose path contains `:` play no role, in any registry,
the result being that of the registry without them; and when every route of
the active plugins contains `:`, such a request is never found. -/
theorem MatchRoute_param_route_literal :
    (∀ (U : strings.CaseFolding) (E V : Type) (p : PluginInstance (Logged E) V)
        (handler : String) (v : V) (events : List E),
        p.Meta.Active = true →
        p.Routes = [{ Method := "GET", Path := "/post/:id", HandlerName := handler }] →
        MatchRoute.invoke p { Method := "GET", Path := "/post/:id", HandlerName := handler }
          "/post/:id" = { val := some v, log := events } →
        MatchRoute U [p] "GET" "/post/:id" = { val := (some v, true), log := events }) ∧
    (∀ (U : strings.CaseFolding) (E V : Type) (p : PluginInstance (Logged E) V)
        (vm : JsRuntime (Logged E) V) (fn : JsCallable (Logged E) V) (handler : String)
        (res : JsValue V) (events : List E),
        p.Meta.Active = true →
        p.Routes = [{ Method := "GET", Path := "/post/:id", HandlerName := handler }] →
        p.JsVM = some vm → vm.Get handler = some fn →
        fn "/post/:id" = { val := .ok res, log := events } →
        MatchRoute U [p] "GET" "/post/:id" =
          { val := (some res.Export, true), log := events }) ∧
    (∀ (U : strings.CaseFolding) (E V : Type) (p : PluginInstance (Logged E) V)
        (i : GoInterp (Logged E) V) (fn : GoFunc (Logged E) V) (handler : String)
        (res0 : GoValue V) (more : List (GoValue V)) (events : List E),
        p.Meta.Active = true →
        p.Routes = [{ Method := "GET", Path := "/post/:id", HandlerName := handler }] →
        p.JsVM = none → p.GoInt = some i → i.Eval handler = some fn →
        fn "/post/:id" = { val := res0 :: more, log := events } →
        MatchRoute U [p] "GET" "/post/:id" =
          { val := (some res0.Interface, true), log := events }) ∧
    (∀ (U : strings.CaseFolding) (m : Type → Type) [Monad m] (V : Type)
        (Instances : List (PluginInstance m V)) (method path : String),
        strings.ContainsRune path ':' = false →
        MatchRoute U Instances method path =
          MatchRoute U (Instances.map withoutParamRoutes) method path) ∧
    (∀ (U : strings.CaseFolding) (m : Type → Type) [Monad m] (V : Type)
        (Instances : List (PluginInstance m V)) (method path : String),
        strings.ContainsRune path ':' = false →
        (∀ p ∈ Instances, p.Meta.Active = true →
          ∀ r ∈ p.Routes, strings.ContainsRune r.Path ':' = true) →
        MatchRoute U Instances method path = pure (none, false)) := by
  have hfold : ∀ U : strings.CaseFolding, strings.EqualFold U "GET" "GET" = true :=
    fun _ => rfl
  refine ⟨?_, ?_, ?_, ?_, ?_⟩
  · intro U E V p handler v events hact hroutes hcall
    simp [MatchRoute, MatchRoute.routes, hact, hroutes, hcall, hfold, bind, pure]
  · intro U E V p vm fn handler res events hact hroutes hvm hget hcall
    simp [MatchRoute, MatchRoute.routes, MatchRoute.invoke, hact, hroutes, hvm, hget,
      hcall, hfold, bind, pure]
  · intro U E V p i fn handler res0 more events hact hroutes hvm hint hget hcall
    simp [MatchRoute, MatchRoute.routes, MatchRoute.invoke, MatchRoute.viaGo, hact, hroutes,
      hvm, hint, hget, hcall, hfold, bind, pure]
  · intro U m _ V Instances method path hpath
    apply MatchRoute_drop_routes U (fun r => !strings.ContainsRune r.Path ':')
    intro r hk hm
    rw [hm.2, hpath] at hk
    exact absurd hk (by decide)
  · intro U m _ V Instances method path hpath hall
    apply MatchRoute_no_match
    intro p hp hact r hr hm
    have h1 := hall p hp hact r hr
    rw [hm.2, hpath] at h1
    exact absurd h1 (by decide)

/-- Witness of C4, amended: the example plugins, a JavaScript one and a Go
one, with the events recorded; and a request path without `:` in a registry
that mixes a route with `:` and the route `/about`. -/
theorem MatchRoute_param_route_literal_witness :
    MatchRoute sampleFolding [paramPlugin (Logged String)] "GET" "/post/:id" =
      { val := (some "post at /post/:id", true), log := [] } ∧
    MatchRoute sampleFolding [paramGoPlugin] "GET" "/post/:id" =
      { val := (some "post at /post/:id", true), log := ["ShowPost /post/:id"] } ∧
    MatchRoute sampleFolding [({ paramGoPlugin with Routes :=
        [{ Method := "GET", Path := "/post/:id", HandlerName := "ShowPost" },
          { Method := "GET", Path := "/about", HandlerName := "ShowPost" }] } :
        PluginInstance (Logged String) String)] "GET" "/about" =
      MatchRoute sampleFolding [({ paramGoPlugin with Routes :=
        [{ Method := "GET", Path := "/about", HandlerName := "ShowPost" }] } :
        PluginInstance (Logged String) String)] "GET" "/about" :=
  ⟨MatchRoute_param_route_literal.2.1 sampleFolding String String
      (paramPlugin (Logged String)) (paramRuntime (Logged String))
      (fun path => pure (.ok { Export := "post at " ++ path, Text := "post" })) "showPost"
      { Export := "post at /post/:id", Text := "post" } [] rfl rfl rfl rfl rfl,
    MatchRoute_param_route_literal.2.2.1 sampleFolding String String paramGoPlugin
      paramInterp showPostFunc "ShowPost" { Interface := "post at /post/:id", Text := "post" } []
      ["ShowPost /post/:id"] rfl rfl rfl rfl rfl rfl,
    MatchRoute_param_route_literal.2.2.2.1 sampleFolding (Logged String) String _ "GET" "/about"
      (by decide)⟩

/-- C5: inactive plugin isolation. For an instance `p` whose active flag is
false, whatever its Hook Table, Route Definitions and engine, at any place in
the visiting order, `ApplyFilter`, `ApplyRequestFilter`, `MatchRoute` and
`GetActiveRoutes` are, in every monad of plugin effects, the same computation
as on the registry without `p`, so that no hook or handler of `p` runs. When
every plugin that has `hookName` is inactive `ApplyFilter` returns its input,
and when every plugin that has a matching route is inactive `MatchRoute`
reports `found = false`. -/
theorem inactive_plugin_isolated {m : Type → Type} [Monad m] {V : Type}
    (U : strings.CaseFolding)
    (before after : List (PluginInstance m V)) (p : PluginInstance m V)
    (hp : p.Meta.Active = false) :
    (∀ hookName content : String,
      ApplyFilter (before ++ p :: after) hookName content =
        ApplyFilter (before ++ after) hookName content) ∧
    (∀ url : String,
      ApplyRequestFilter (before ++ p :: after) url = ApplyRequestFilter (before ++ after) url) ∧
    (∀ method path : String,
      MatchRoute U (before ++ p :: after) method path =
        MatchRoute U (before ++ after) method path) ∧
    GetActiveRoutes (before ++ p :: after) = GetActiveRoutes (before ++ after) ∧
    (∀ (Instances : List (PluginInstance m V)) (hookName content : String),
      (∀ q ∈ Instances, GoMap.get q.Hooks hookName ≠ none → q.Meta.Active = false) →
      ApplyFilter Instances hookName content = pure content) ∧
    (∀ (Instances : List (PluginInstance m V)) (method path : String),
      (∀ q ∈ Instances,
        (∃ r ∈ q.Routes, strings.EqualFold U r.Method method = true ∧ r.Path = path) →
        q.Meta.Active = false) →
      MatchRoute U Instances method path = pure (none, false)) := by
  refine ⟨fun hookName content => ApplyFilter_skip_inactive before after p hp hookName content,
    fun url => ApplyRequestFilter_skip_inactive before after p hp url,
    fun method path => MatchRoute_skip_inactive U before after p hp method path,
    GetActiveRoutes.loop_skip_inactive before after p hp [],
    fun Instances hookName content h => ApplyFilter_no_active_hook Instances hookName content h,
    ?_⟩
  intro Instances method path h
  apply MatchRoute_no_match
  intro q hq hact r hr hm
  have := h q hq ⟨r, hr, hm⟩
  rw [hact] at this
  exact absurd this (by decide)

/-- Witness of C5: an inactive plugin with a hook, a route and an engine,
between two active plugins. -/
theorem inactive_plugin_isolated_witness :
    mutedPlugin.Meta.Active = false ∧
    ApplyFilter [hookPlugin "a" true [("OnMarkdown", tagHook "[a]")], mutedPlugin,
        hookPlugin "b" true [("OnMarkdown", tagHook "[b]")]] "OnMarkdown" "x" =
      ApplyFilter [hookPlugin "a" true [("OnMarkdown", tagHook "[a]")],
        hookPlugin "b" true [("OnMarkdown", tagHook "[b]")]] "OnMarkdown" "x" ∧
    MatchRoute sampleFolding [hookPlugin "a" true [], mutedPlugin] "GET" "/post/:id" =
      MatchRoute sampleFolding [hookPlugin "a" true []] "GET" "/post/:id" :=
  ⟨rfl,
    (inactive_plugin_isolated sampleFolding
      [hookPlugin "a" true [("OnMarkdown", tagHook "[a]")]]
      [hookPlugin "b" true [("OnMarkdown", tagHook "[b]")]] mutedPlugin rfl).1 "OnMarkdown" "x",
    (inactive_plugin_isolated sampleFolding [hookPlugin "a" true []] [] mutedPlugin rfl).2.2.1
      "GET" "/post/:id"⟩

/-- C7: `GetActiveRoutes` returns exactly the paths of the routes, over the
active plugins in visiting order and within a plugin in registration order,
whose method is `GET` up to letter case and whose path contains no `:`, each
once per registration; so every path listed belongs to such a route of an
active plugin, and every such route has its path listed. -/
theorem GetActiveRoutes_lists_sitemap_routes {m : Type → Type} {V : Type}
    (Instances : List (PluginInstance m V)) :
    GetActiveRoutes Instances =
      ((Instances.filter (fun p => p.Meta.Active)).map
        (fun p => (p.Routes.filter sitemapRoute).map (fun r => r.Path))).flatten ∧
    (∀ path : String, path ∈ GetActiveRoutes Instances ↔
      ∃ p ∈ Instances, p.Meta.Active = true ∧ ∃ r ∈ p.Routes,
        asciiFoldEq r.Method "GET" = true ∧ strings.ContainsRune r.Path ':' = false ∧
        r.Path = path) := by
  have heq : GetActiveRoutes Instances =
      ((Instances.filter (fun p => p.Meta.Active)).map
        (fun p => (p.Routes.filter sitemapRoute).map (fun r => r.Path))).flatten := by
    unfold GetActiveRoutes
    rw [GetActiveRoutes.loop_eq]
    simp
  refine ⟨heq, fun path => ?_⟩
  rw [heq]
  simp only [List.mem_flatten, List.mem_map, List.mem_filter, sitemapRoute, Bool.and_eq_true,
    Bool.not_eq_true']
  constructor
  · rintro ⟨l, ⟨p, ⟨hp, hact⟩, rfl⟩, hmem⟩
    obtain ⟨r, ⟨hr, hq1, hq2⟩, rfl⟩ := List.mem_map.1 hmem |>.imp fun r h => by
      simpa [List.mem_filter, sitemapRoute] using h
    exact ⟨p, hp, hact, r, hr, hq1, hq2, rfl⟩
  · rintro ⟨p, hp, hact, r, hr, hq1, hq2, rfl⟩
    have hr' : r ∈ p.Routes.filter sitemapRoute := by
      simp [List.mem_filter, sitemapRoute, hr, hq1, hq2]
    exact ⟨_, ⟨p, ⟨hp, hact⟩, rfl⟩, List.mem_map.2 ⟨r, hr', rfl⟩⟩

/-- Counterexample to C6: the manifest of the active Go plugin `meddler`
declares the single setting `color`; its source writes the key `extra` into
the live map it gets from `GetConfig`, and the instance `loadOne` returns
carries a configuration with the undeclared key `extra`. -/
theorem loadOne_config_has_undeclared_key :
    meddlingEnv.Unmarshal "manifest of meddler" =
      some { exampleMeta "meddler" "main.go" true with
        Settings := [textSetting "color" "" "red"] } ∧
    (loadOne meddlingEnv "meddler").map (fun inst => GoMap.keys inst.Config) =
      some ["color", "extra"] ∧
    ¬ (∃ s ∈ [textSetting "color" "" "red"], s.Key = "extra") := by
  refine ⟨rfl, by decide, ?_⟩
  simp [textSetting]

/-- C6, amended: configuration resolution. For a manifest that is read and
decoded, the mapping `loadOne` builds from the declared settings has exactly
the keys of the declared settings, each once, and maps each key to the
effective value (current value if not empty, default value otherwise) of the
last setting declared with that key. The instance returned carries this
mapping when no engine is run; when an engine is run, it is run on this
mapping and the instance carries the mapping as the run left it. -/
theorem loadOne_resolves_configuration {m : Type → Type} [Monad m] [MonadExcept GoPanic m]
    {V : Type} (env : Env m V) (dirName data : String) (decoded : PluginMetadata)
    (hread : env.ReadFile ("./plugins/" ++ dirName ++ "/plugin.json") = some data)
    (hparse : env.Unmarshal data = some decoded) :
    (∀ k, k ∈ GoMap.keys (resolveConfig [] decoded.Settings) ↔
      ∃ s ∈ decoded.Settings, s.Key = k) ∧
    (GoMap.keys (resolveConfig [] decoded.Settings)).Nodup ∧
    (∀ k, GoMap.get (resolveConfig [] decoded.Settings) k =
      (lastDeclared decoded.Settings k).map effectiveValue) ∧
    ∃ inst, loadOne env dirName = some inst ∧
      ((decoded.Active = false ∨
          env.ReadFile (filepath.Join ("./plugins/" ++ dirName) decoded.Entry) = none ∨
          (strings.ToLower (filepath.Ext decoded.Entry) ≠ ".js" ∧
            strings.ToLower (filepath.Ext decoded.Entry) ≠ ".go")) →
        inst.Config = resolveConfig [] decoded.Settings) ∧
      (∀ src, decoded.Active = true →
        env.ReadFile (filepath.Join ("./plugins/" ++ dirName) decoded.Entry) = some src →
        strings.ToLower (filepath.Ext decoded.Entry) = ".js" →
        inst.Config = (env.RunString (resolveConfig [] decoded.Settings) src).config) ∧
      (∀ src, decoded.Active = true →
        env.ReadFile (filepath.Join ("./plugins/" ++ dirName) decoded.Entry) = some src →
        strings.ToLower (filepath.Ext decoded.Entry) = ".go" →
        inst.Config = (env.Eval (resolveConfig [] decoded.Settings) src).config) := by
  refine ⟨?_, ?_, ?_, ?_⟩
  · intro k
    rw [resolveConfig_mem_keys]
    simp [GoMap.keys]
  · exact resolveConfig_nodup [] decoded.Settings (by simp [GoMap.keys])
  · intro k
    rw [resolveConfig_get]
    cases lastDeclared decoded.Settings k <;> simp [GoMap.get]
  · have hne : (".go" : String) ≠ ".js" := by decide
    obtain ⟨inst, hinst, -⟩ := loadOne_some env dirName data decoded hread hparse
    refine ⟨inst, hinst, ?_, ?_, ?_⟩
    · intro hinert
      unfold loadOne at hinst
      simp only [hread, hparse] at hinst
      rcases hinert with h | h | ⟨h1, h2⟩
      · simp only [h, Bool.not_false, if_true, Option.some.injEq] at hinst
        rw [← hinst]
      · by_cases hact : decoded.Active = true
        · simp only [hact, h, Bool.not_true, Bool.false_eq_true, if_false,
            Option.some.injEq] at hinst
          rw [← hinst]
        · have hf : decoded.Active = false := by simpa using hact
          simp only [hf, Bool.not_false, if_true, Option.some.injEq] at hinst
          rw [← hinst]
      · by_cases hact : decoded.Active = true
        · cases hsrc : env.ReadFile (filepath.Join ("./plugins/" ++ dirName) decoded.Entry) with
          | none =>
            simp only [hact, hsrc, Bool.not_true, Bool.false_eq_true, if_false,
              Option.some.injEq] at hinst
            rw [← hinst]
          | some src =>
            simp only [hact, hsrc, h1, h2, Bool.not_true, Bool.false_eq_true, if_false,
              Option.some.injEq] at hinst
            rw [← hinst]
        · have hf : decoded.Active = false := by simpa using hact
          simp only [hf, Bool.not_false, if_true, Option.some.injEq] at hinst
          rw [← hinst]
    · intro src hact hsrc hjs
      unfold loadOne at hinst
      simp only [hread, hparse, hact, hsrc, hjs, Bool.not_true, Bool.false_eq_true, if_false,
        if_true, Option.some.injEq] at hinst
      rw [← hinst]
      exact (loadJS_fields env _ src).2.1
    · intro src hact hsrc hgo
      unfold loadOne at hinst
      simp only [hread, hparse, hact, hsrc, hgo, hne, Bool.not_true, Bool.false_eq_true,
        if_false, if_true, Option.some.injEq] at hinst
      rw [← hinst]
      exact (loadGo_fields env _ src).2.1

/-- Witness of C6, amended: the manifest of the inactive plugin `notes`
declares `color` twice, with an empty current value, and `size` with the
current value `12`. -/
theorem loadOne_resolves_configuration_witness :
    GoMap.get (resolveConfig [] notesMeta.Settings) "color" = some "blue" ∧
    GoMap.get (resolveConfig [] notesMeta.Settings) "size" = some "12" ∧
    ∃ inst, loadOne exampleEnv "notes" = some inst ∧
      inst.Config = resolveConfig [] notesMeta.Settings := by
  obtain ⟨-, -, hget, inst, hinst, hinert, -⟩ :=
    loadOne_resolves_configuration exampleEnv "notes" "manifest of notes" notesMeta rfl rfl
  exact ⟨(hget "color").trans rfl, (hget "size").trans rfl, inst, hinst,
    hinert (Or.inl rfl)⟩

/-- Counterexample to C8: the script of the active plugin `broken` is read,
has the extension `.js` and fails during evaluation, after one call of
`RegisterRoute`; the instance `loadOne` returns has the engine handle `JsVM`
and one Route Definition. -/
theorem loadOne_failed_script_keeps_engine :
    (exampleEnv.RunString [] "RegisterRoute(...); throw 1").err = true ∧
    (loadOne exampleEnv "broken").map
        (fun inst => (inst.Meta.Active, inst.JsVM.isSome, inst.GoInt.isSome, inst.Routes,
          GoMap.keys inst.Hooks)) =
      some (true, true, false,
        [{ Method := "GET", Path := "/early", HandlerName := "early" }], []) := by
  constructor
  · rfl
  · decide

/-- C8, amended: when the evaluation of the script of an active plugin fails,
the instance `loadOne` returns has an empty Hook Table; it keeps the handle of
the engine chosen by the entry extension (`JsVM` for `.js`, `GoInt` for
`.go`), the other handle is absent, and its Route Definitions are the routes
the script registered before it failed. -/
theorem loadOne_failed_evaluation {m : Type → Type} [Monad m] [MonadExcept GoPanic m]
    {V : Type} (env : Env m V) (dirName data src : String) (decoded : PluginMetadata)
    (hread : env.ReadFile ("./plugins/" ++ dirName ++ "/plugin.json") = some data)
    (hparse : env.Unmarshal data = some decoded)
    (hactive : decoded.Active = true)
    (hsrc : env.ReadFile (filepath.Join ("./plugins/" ++ dirName) decoded.Entry) = some src) :
    (strings.ToLower (filepath.Ext decoded.Entry) = ".js" →
      (env.RunString (resolveConfig [] decoded.Settings) src).err = true →
      ∃ inst, loadOne env dirName = some inst ∧ inst.Hooks = [] ∧
        inst.JsVM = some (env.RunString (resolveConfig [] decoded.Settings) src).vm ∧
        inst.GoInt = none ∧
        inst.Routes = (env.RunString (resolveConfig [] decoded.Settings) src).registered) ∧
    (strings.ToLower (filepath.Ext decoded.Entry) = ".go" →
      (env.Eval (resolveConfig [] decoded.Settings) src).err = true →
      ∃ inst, loadOne env dirName = some inst ∧ inst.Hooks = [] ∧
        inst.GoInt = some (env.Eval (resolveConfig [] decoded.Settings) src).interp ∧
        inst.JsVM = none ∧
        inst.Routes = (env.Eval (resolveConfig [] decoded.Settings) src).registered) := by
  constructor
  · intro hjs herr
    obtain ⟨-, -, h3, h4, h5, h6⟩ := loadJS_fields env
      ({ Meta := { decoded with DirName := dirName },
         Config := resolveConfig [] decoded.Settings, Hooks := [], Routes := [],
         JsVM := none, GoInt := none } : PluginInstance m V) src
    refine ⟨_, ?_, h6 herr, h4, h5, by simpa using h3⟩
    unfold loadOne
    simp only [hread, hparse, hactive, hsrc, hjs, Bool.not_true, Bool.false_eq_true, if_false,
      if_true]
  · intro hgo herr
    obtain ⟨-, -, h3, h4, h5, h6⟩ := loadGo_fields env
      ({ Meta := { decoded with DirName := dirName },
         Config := resolveConfig [] decoded.Settings, Hooks := [], Routes := [],
         JsVM := none, GoInt := none } : PluginInstance m V) src
    have hne : (".go" : String) ≠ ".js" := by decide
    refine ⟨_, ?_, h6 herr, h5, h4, by simpa using h3⟩
    unfold loadOne
    simp only [hread, hparse, hactive, hsrc, hgo, hne, Bool.not_true, Bool.false_eq_true,
      if_false, if_true]

/-- Witness of C8, amended: the plugin `broken`. -/
theorem loadOne_failed_evaluation_witness :
    ∃ inst, loadOne exampleEnv "broken" = some inst ∧ inst.Hooks = [] ∧
      inst.JsVM = some emptyRuntime ∧ inst.GoInt = none ∧
      inst.Routes = [{ Method := "GET", Path := "/early", HandlerName := "early" }] :=
  (loadOne_failed_evaluation exampleEnv "broken" "manifest of broken"
    "RegisterRoute(...); throw 1" (exampleMeta "broken" "main.js" true) rfl rfl rfl
    (by decide)).1 (by decide) rfl

/-- C9: metadata-only loads. For a manifest that is read and decoded, if the
manifest has `active = false`, or the entry file cannot be read, or the
lower-cased extension of the entry is neither `.js` nor `.go`, then `loadOne`
returns the instance that carries the descriptor and the Resolved
Configuration, with an empty Hook Table, no Route Definition and no engine
handle; the result is the same whatever the two engines would do, none being
run. -/
theorem loadOne_metadata_only {m : Type → Type} [Monad m] [MonadExcept GoPanic m]
    {V : Type} (env : Env m V) (dirName data : String) (decoded : PluginMetadata)
    (hread : env.ReadFile ("./plugins/" ++ dirName ++ "/plugin.json") = some data)
    (hparse : env.Unmarshal data = some decoded)
    (hinert : decoded.Active = false ∨
      env.ReadFile (filepath.Join ("./plugins/" ++ dirName) decoded.Entry) = none ∨
      (strings.ToLower (filepath.Ext decoded.Entry) ≠ ".js" ∧
        strings.ToLower (filepath.Ext decoded.Entry) ≠ ".go")) :
    loadOne env dirName =
      some { Meta := { decoded with DirName := dirName },
             Config := resolveConfig [] decoded.Settings,
             Hooks := [], Routes := [], JsVM := none, GoInt := none } ∧
    ∀ (runString : GoMap String → String → JsRun m V)
      (eval : GoMap String → String → GoRun m V),
      loadOne { env with RunString := runString, Eval := eval } dirName = loadOne env dirName := by
  have key : ∀ env' : Env m V, env'.ReadFile = env.ReadFile → env'.Unmarshal = env.Unmarshal →
      loadOne env' dirName =
        some { Meta := { decoded with DirName := dirName },
               Config := resolveConfig [] decoded.Settings,
               Hooks := [], Routes := [], JsVM := none, GoInt := none } := by
    intro env' hrf hum
    unfold loadOne
    simp only [hrf, hum, hread, hparse]
    rcases hinert with h | h | ⟨h1, h2⟩
    · simp [h]
    · by_cases hact : decoded.Active = true <;> simp [hact, h]
    · by_cases hact : decoded.Active = true
      · cases env.ReadFile (filepath.Join ("./plugins/" ++ dirName) decoded.Entry) <;>
          simp [hact, h1, h2]
      · simp [hact]
  refine ⟨key env rfl rfl, fun runString eval => ?_⟩
  rw [key env rfl rfl, key { env with RunString := runString, Eval := eval } rfl rfl]

/-- Witness of C9: the inactive plugin `notes`. -/
theorem loadOne_metadata_only_witness :
    (loadOne exampleEnv "notes").map
        (fun inst => (inst.Meta.ID, inst.Meta.DirName, inst.Config, GoMap.keys inst.Hooks,
          inst.Routes, inst.JsVM.isSome, inst.GoInt.isSome)) =
      some ("notes", "notes", [("color", "blue"), ("size", "12")], [], [], false, false) := by
  rw [(loadOne_metadata_only exampleEnv "notes" "manifest of notes" notesMeta rfl rfl
    (Or.inl rfl)).1]
  rfl

/-- C10: reload replaces the registry as a whole and skips bad manifests.
The registry after `Init` does not depend on the registry before it; an
identity is present exactly when some immediate subdirectory of the plugins
root has a manifest that is read, is decoded and declares that identity; an
entry that is not a directory, or whose manifest is missing or is not decoded,
can be removed from the listing without changing the resulting registry; and
when the plugins root cannot be read the registry is empty. -/
theorem Init_replaces_registry {m : Type → Type} [Monad m] [MonadExcept GoPanic m]
    {V : Type} (env : Env m V) (old : GoMap (PluginInstance m V)) :
    (∀ old' : GoMap (PluginInstance m V), Init env old = Init env old') ∧
    (∀ id : String, (GoMap.get (Init env old) id).isSome = true ↔
      ∃ entries, env.ReadDir "./plugins" = some entries ∧
        ∃ e ∈ entries, e.IsDir = true ∧
          ∃ data decoded,
            env.ReadFile ("./plugins/" ++ e.Name ++ "/plugin.json") = some data ∧
            env.Unmarshal data = some decoded ∧ decoded.ID = id) ∧
    (∀ (before after : List DirEntry) (e : DirEntry),
      env.ReadDir "./plugins" = some (before ++ e :: after) →
      (e.IsDir = false ∨
        env.ReadFile ("./plugins/" ++ e.Name ++ "/plugin.json") = none ∨
        ∃ data, env.ReadFile ("./plugins/" ++ e.Name ++ "/plugin.json") = some data ∧
          env.Unmarshal data = none) →
      Init env old =
        Init { env with ReadDir := fun dir =>
          if dir = "./plugins" then some (before ++ after) else env.ReadDir dir } old) ∧
    (env.ReadDir "./plugins" = none → Init env old = []) := by
  refine ⟨fun old' => rfl, fun id => ?_, ?_, ?_⟩
  · unfold Init
    cases hdir : env.ReadDir "./plugins" with
    | none => simp [GoMap.get]
    | some entries =>
      simp only [Init.scan_get_isSome, GoMap.get, Option.isSome_none, Bool.false_eq_true,
        false_or, Option.some.injEq, exists_eq_left', loadOne_isSome_iff]
  · intro before after e hdir hbad
    have hnone : e.IsDir = false ∨ loadOne env e.Name = none := by
      rcases hbad with h | h | ⟨data, h1, h2⟩
      · exact Or.inl h
      · exact Or.inr (loadOne_none_of_unreadable env e.Name h)
      · exact Or.inr (loadOne_none_of_unparsable env e.Name data h1 h2)
    have hsame : ∀ (acc : GoMap (PluginInstance m V)) (entries : List DirEntry),
        Init.scan { env with ReadDir := fun dir =>
          if dir = "./plugins" then some (before ++ after) else env.ReadDir dir } acc entries =
        Init.scan env acc entries := by
      intro acc entries
      induction entries generalizing acc with
      | nil => rfl
      | cons d rest ih =>
        unfold Init.scan
        have hl : loadOne { env with ReadDir := fun dir =>
            if dir = "./plugins" then some (before ++ after) else env.ReadDir dir } d.Name =
            loadOne env d.Name := rfl
        rw [hl]
        split
        · split <;> exact ih _
        · exact ih _
    unfold Init
    simp only [hdir, if_true, hsame]
    exact Init.scan_skip env [] before after e hnone
  · intro hdir
    unfold Init
    simp only [hdir]

/-- Witness of C10: the plugins root of the example, where `stray` has no
manifest. -/
theorem Init_replaces_registry_witness :
    Init exampleEnv [("stale", stalePlugin)] = Init exampleEnv [] ∧
    GoMap.keys (Init exampleEnv [("stale", stalePlugin)]) = ["broken", "notes"] ∧
    Init exampleEnv [("stale", stalePlugin)] = Init prunedEnv [("stale", stalePlugin)] :=
  ⟨(Init_replaces_registry exampleEnv [("stale", stalePlugin)]).1 [], by decide,
    (Init_replaces_registry exampleEnv [("stale", stalePlugin)]).2.2.1
      [{ Name := "broken", IsDir := true }] [{ Name := "notes", IsDir := true }]
      { Name := "stray", IsDir := true } rfl (Or.inr (Or.inl rfl))⟩

/-- C13, evaluated at the failing input. In every monad of plugin effects
`ApplyResponseFilter` runs the `OnResponse` hook of each active instance that
has one, in visiting order, and no other hook; every hook gets the same
payload, the encoding of the object whose fields are exactly `html` and `url`
with the given values, which any decoder that inverts the encoder gives back.
With plugins that do not fail, each hook has run once, the call returns the
unit value, and the events recorded, like the store the hooks can write, are
what the hooks themselves leave on the payload, whatever they return. But
when the hook of `loud` throws, the closure stored by `registerJSHook`
dereferences the nil result: `ApplyResponseFilter` ends in that panic, and the
hook of `quiet`, visited after it, is never run. -/
theorem ApplyResponseFilter_throwing_hook_panics :
    (∀ (m : Type → Type) [Monad m] (V : Type) (encode : List (String × String) → String)
        (Instances : List (PluginInstance m V)) (url html : String),
        ApplyResponseFilter encode Instances url html =
          notifyAll (encode (responsePayload url html))
            (activeHooks Instances "OnResponse")) ∧
    (∀ url html : String,
        GoMap.keys (responsePayload url html) = ["html", "url"] ∧
        GoMap.get (responsePayload url html) "url" = some url ∧
        GoMap.get (responsePayload url html) "html" = some html) ∧
    (∀ (encode : List (String × String) → String)
        (decode : String → Option (List (String × String))),
        (∀ fields, decode (encode fields) = some fields) →
        ∀ url html : String,
          decode (encode (responsePayload url html)) = some [("html", html), ("url", url)]) ∧
    (∀ (E V : Type) (encode : List (String × String) → String)
        (Instances : List (PluginInstance (Logged E) V)) (url html : String),
        ApplyResponseFilter encode Instances url html =
          { val := (),
            log := ((activeHooks Instances "OnResponse").map
              (fun hook => (hook (encode (responsePayload url html))).log)).flatten }) ∧
    (∀ (σ V : Type) (encode : List (String × String) → String)
        (Instances : List (PluginInstance (Stored σ) V)) (url html : String) (s : σ),
        (ApplyResponseFilter encode Instances url html).run s =
          ((), (activeHooks Instances "OnResponse").foldl
            (fun st hook => ((hook (encode (responsePayload url html))).run st).2) s)) ∧
    (∃ loud quiet, loadOne observerEnv "loud" = some loud ∧
      loadOne observerEnv "quiet" = some quiet ∧
      (∀ (encode : List (String × String) → String) (url html : String),
        ApplyResponseFilter encode [quiet, quiet] url html = Except.ok ()) ∧
      (∀ (encode : List (String × String) → String) (url html : String),
        ApplyResponseFilter encode [loud, quiet] url html =
          Except.error GoPanic.nilDereference) ∧
      (∀ (encode : List (String × String) → String) (url html : String),
        ApplyResponseFilter encode [quiet, loud, quiet] url html =
          Except.error GoPanic.nilDereference)) := by
  refine ⟨fun m _ V encode Instances url html =>
    ApplyResponseFilter_eq_notifyAll encode Instances url html, ?_, ?_, ?_, ?_, ?_⟩
  · intro url html
    refine ⟨rfl, ?_, ?_⟩
    · simp [responsePayload, GoMap.get]
    · simp [responsePayload, GoMap.get]
  · intro encode decode hinv url html
    exact hinv _
  · intro E V encode Instances url html
    rw [ApplyResponseFilter_eq_notifyAll, notifyAll_logged]
  · intro σ V encode Instances url html s
    rw [ApplyResponseFilter_eq_notifyAll, notifyAll_stored]
  · exact ⟨_, _, rfl, rfl, fun _ _ _ => rfl, fun _ _ _ => rfl, fun _ _ _ => rfl⟩

/-- C11, evaluated at the failing input: `MatchRoute` scans the handler
invocations of the matching routes and stops at the first one that yields a
value, in every monad of plugin effects; when the JavaScript handler of
`jsfail` throws, the route is passed over and the handler of `jsok` answers;
when the Go handler of `gofail` panics, the panic leaves `MatchRoute` and the
route of `jsok` is never tried. -/
theorem MatchRoute_go_handler_panic_escapes :
    (∀ (U : strings.CaseFolding) (m : Type → Type) [Monad m] (V : Type)
        (Instances : List (PluginInstance m V)) (method path : String),
        MatchRoute U Instances method path =
          firstSuccess (pure (none, false)) (routeCalls U Instances method path)) ∧
    (∃ js go ok, loadOne faultyEnv "jsfail" = some js ∧
      loadOne faultyEnv "gofail" = some go ∧ loadOne faultyEnv "jsok" = some ok ∧
      (∀ U : strings.CaseFolding,
        MatchRoute U [js, ok] "GET" "/fail" = Except.ok (some "served", true)) ∧
      (∀ U : strings.CaseFolding,
        MatchRoute U [go, ok] "GET" "/fail" = Except.error (GoPanic.other "boom"))) :=
  ⟨fun U _ _ _ Instances method path => MatchRoute_eq_firstSuccess U Instances method path,
    _, _, _, rfl, rfl, rfl, fun _ => rfl, fun _ => rfl⟩

/-- C12, evaluated at the failing input: the hooks of `jsfail` throw, the
closure stored by `registerJSHook` drops the error and dereferences the nil
result, and `ApplyFilter` and `ApplyRequestFilter` end in that panic instead
of going on with the unmodified content; the panic of the Go hook of `gofail`
leaves `ApplyFilter` the same way. Only a Go hook that returns no value gives
back its input. -/
theorem ApplyFilter_failing_hook_panics :
    ∃ js go ok, loadOne faultyEnv "jsfail" = some js ∧
      loadOne faultyEnv "gofail" = some go ∧ loadOne faultyEnv "jsok" = some ok ∧
      ApplyFilter [js, ok] "OnMarkdown" "x" = Except.error GoPanic.nilDereference ∧
      ApplyRequestFilter [js, ok] "/page" = Except.error GoPanic.nilDereference ∧
      ApplyFilter [go, ok] "OnMarkdown" "x" = Except.error (GoPanic.other "boom") ∧
      ApplyFilter [go, ok] "OnContentRender" "x" = Except.ok "x" :=
  ⟨_, _, _, rfl, rfl, rfl, rfl, rfl, rfl, rfl⟩

/-- C15: registry key invariant. After `Init` each key of the registry maps to
an instance whose descriptor identity is that key, the empty identity
included, and no key occurs twice; so `GetInstance(id)` returns `(p, true)`
only with `p.Meta.ID = id`, and `GetAllPlugins`, in whatever order the
registry is visited, returns descriptors with pairwise distinct identities.
The entry kept for an identity is the instance of the subdirectory scanned
last among those that declare it. -/
theorem Init_registry_keyed {m : Type → Type} [Monad m] [MonadExcept GoPanic m]
    {V : Type} (env : Env m V) (old : GoMap (PluginInstance m V)) :
    (∀ k p, (k, p) ∈ Init env old → p.Meta.ID = k) ∧
    (GoMap.keys (Init env old)).Nodup ∧
    (∀ id p, GetInstance (Init env old) id = some p → p.Meta.ID = id) ∧
    (∀ Instances : List (PluginInstance m V),
      Instances.Perm (GoMap.values (Init env old)) →
      ((GetAllPlugins Instances).map (fun d => d.ID)).Nodup) ∧
    (∀ entries, env.ReadDir "./plugins" = some entries →
      ∀ id, GetInstance (Init env old) id = lastLoaded env entries id) := by
  have hkeyed : ∀ e ∈ Init env old, e.2.Meta.ID = e.1 := by
    unfold Init
    cases env.ReadDir "./plugins" with
    | none => simp
    | some entries => exact Init.scan_keyed env [] entries (by simp)
  have hnodup : (GoMap.keys (Init env old)).Nodup := by
    unfold Init
    cases env.ReadDir "./plugins" with
    | none => simp [GoMap.keys]
    | some entries => exact Init.scan_nodup env [] entries (by simp [GoMap.keys])
  refine ⟨fun k p h => hkeyed (k, p) h, hnodup, ?_, ?_, ?_⟩
  · intro id p h
    exact hkeyed (id, p) (GoMap.mem_of_get _ id p h)
  · intro Instances hperm
    have hids : (GoMap.values (Init env old)).map (fun p => p.Meta.ID) =
        GoMap.keys (Init env old) := by
      simp only [GoMap.values, GoMap.keys, List.map_map]
      apply List.map_congr_left
      intro e he
      exact hkeyed e he
    have hp : ((GetAllPlugins Instances).map (fun d => d.ID)).Perm
        (GoMap.keys (Init env old)) := by
      rw [← hids]
      simp only [GetAllPlugins, List.map_map]
      exact hperm.map _
    exact hp.nodup_iff.2 hnodup
  · intro entries hdir id
    unfold GetInstance Init
    simp only [hdir]
    rw [Init.scan_get]
    cases lastLoaded env entries id <;> simp [GoMap.get]

/-- Witness of C15: `first` and `second` declare the same identity `twin`;
the registry keeps one entry for it, the instance loaded from `second`. -/
theorem Init_registry_keyed_witness :
    GoMap.keys (Init twinEnv []) = ["twin", ""] ∧
    (GetInstance (Init twinEnv []) "twin").map (fun p => p.Meta.DirName) = some "second" ∧
    GetInstance (Init twinEnv []) "twin" =
      lastLoaded twinEnv [⟨"first", true⟩, ⟨"anon", true⟩, ⟨"second", true⟩] "twin" :=
  ⟨by decide, by decide,
    (Init_registry_keyed twinEnv []).2.2.2.2 _ rfl "twin"⟩

/-- C16: instance well-formedness. Every instance returned by `loadOne` has
at most one engine handle, every key of its Hook Table is one of the four
hook names, and if its Hook Table or its Route Definitions are not empty then
its manifest is active and exactly one engine handle is present, the one
chosen by the lower-cased extension of the entry (`.js` gives `JsVM`, `.go`
gives `GoInt`). -/
theorem loadOne_instance_well_formed {m : Type → Type} [Monad m] [MonadExcept GoPanic m]
    {V : Type} (env : Env m V) (dirName : String) (inst : PluginInstance m V)
    (h : loadOne env dirName = some inst) :
    ¬ (inst.JsVM.isSome = true ∧ inst.GoInt.isSome = true) ∧
    (∀ k ∈ GoMap.keys inst.Hooks,
      k ∈ ["OnContentRender", "OnMarkdown", "OnRequest", "OnResponse"]) ∧
    ((inst.Hooks ≠ [] ∨ inst.Routes ≠ []) →
      inst.Meta.Active = true ∧
      ((strings.ToLower (filepath.Ext inst.Meta.Entry) = ".js" ∧
          inst.JsVM.isSome = true ∧ inst.GoInt = none) ∨
        (strings.ToLower (filepath.Ext inst.Meta.Entry) = ".go" ∧
          inst.GoInt.isSome = true ∧ inst.JsVM = none))) := by
  obtain ⟨decoded, hbare | ⟨hact, hjs, src, hinst⟩ | ⟨hact, hgo, src, hinst⟩⟩ :=
    loadOne_cases env dirName inst h
  · subst hbare
    refine ⟨by simp, by simp [GoMap.keys], ?_⟩
    rintro (hne | hne) <;> exact absurd rfl hne
  · obtain ⟨h1, -, -, h4, h5, -⟩ := loadJS_fields env
      ({ Meta := { decoded with DirName := dirName },
         Config := resolveConfig [] decoded.Settings, Hooks := [], Routes := [],
         JsVM := none, GoInt := none } : PluginInstance m V) src
    rw [← hinst] at h1 h4 h5
    refine ⟨?_, ?_, ?_⟩
    · rw [h5]
      simp
    · intro k hk
      rw [hinst] at hk
      rcases loadJS_keys env _ src k hk with hk' | hk'
      · exact hk'
      · simp [GoMap.keys] at hk'
    · intro _
      rw [h1, h4, h5]
      exact ⟨hact, Or.inl ⟨hjs, rfl, rfl⟩⟩
  · obtain ⟨h1, -, -, h4, h5, -⟩ := loadGo_fields env
      ({ Meta := { decoded with DirName := dirName },
         Config := resolveConfig [] decoded.Settings, Hooks := [], Routes := [],
         JsVM := none, GoInt := none } : PluginInstance m V) src
    rw [← hinst] at h1 h4 h5
    refine ⟨?_, ?_, ?_⟩
    · rw [h4]
      simp
    · intro k hk
      rw [hinst] at hk
      rcases loadGo_keys env _ src k hk with hk' | hk'
      · exact hk'
      · simp [GoMap.keys] at hk'
    · intro _
      rw [h1, h4, h5]
      exact ⟨hact, Or.inr ⟨hgo, rfl, rfl⟩⟩

/-- Witness of C16: the JavaScript plugin `jsfail`, loaded with two hooks and
one route. -/
theorem loadOne_instance_well_formed_witness :
    ∃ inst, loadOne faultyEnv "jsfail" = some inst ∧
      GoMap.keys inst.Hooks = ["OnMarkdown", "OnRequest"] ∧
      inst.Routes = [{ Method := "GET", Path := "/fail", HandlerName := "Fail" }] ∧
      ¬ (inst.JsVM.isSome = true ∧ inst.GoInt.isSome = true) ∧
      (∀ k ∈ GoMap.keys inst.Hooks,
        k ∈ ["OnContentRender", "OnMarkdown", "OnRequest", "OnResponse"]) ∧
      ((inst.Hooks ≠ [] ∨ inst.Routes ≠ []) →
        inst.Meta.Active = true ∧
        ((strings.ToLower (filepath.Ext inst.Meta.Entry) = ".js" ∧
            inst.JsVM.isSome = true ∧ inst.GoInt = none) ∨
          (strings.ToLower (filepath.Ext inst.Meta.Entry) = ".go" ∧
            inst.GoInt.isSome = true ∧ inst.JsVM = none))) :=
  ⟨_, rfl, rfl, rfl, loadOne_instance_well_formed faultyEnv "jsfail" _ rfl⟩

/-- C17: archive extraction stays inside the destination. Every file-system
call `Unzip` makes belongs to an archive entry whose path, the entry name
joined to `dest` and cleaned, begins with the cleaned `dest` followed by the
separator: for a directory entry the call creates the directory at that path,
for a file entry it creates the parent of that path or opens and writes the
file at that path; so every file opened or written has such a path. An entry
whose joined path does not have that prefix is skipped: the calls made and
the error returned are those for the archive without the entry. -/
theorem Unzip_stays_inside (disk : Disk) (src dest : String) :
    (∀ op ∈ (Unzip disk src dest).1,
      ∃ files f, disk.OpenReader src = some files ∧ f ∈ files ∧
        strings.HasPrefix (filepath.Join dest f.Name) (filepath.Clean dest ++ "/") = true ∧
        callsFor dest f op) ∧
    (∀ (path : String) (mode : Nat) (content : String),
      (FsOp.OpenFile path mode ∈ (Unzip disk src dest).1 ∨
        FsOp.Copy path content ∈ (Unzip disk src dest).1) →
      strings.HasPrefix path (filepath.Clean dest ++ "/") = true) ∧
    (∀ (before after : List ZipFile) (f : ZipFile),
      disk.OpenReader src = some (before ++ f :: after) →
      strings.HasPrefix (filepath.Join dest f.Name) (filepath.Clean dest ++ "/") = false →
      Unzip disk src dest = Unzip.loop disk dest [] (before ++ after)) := by
  have hops : ∀ op ∈ (Unzip disk src dest).1,
      ∃ files f, disk.OpenReader src = some files ∧ f ∈ files ∧
        strings.HasPrefix (filepath.Join dest f.Name) (filepath.Clean dest ++ "/") = true ∧
        callsFor dest f op := by
    intro op hop
    unfold Unzip at hop
    cases hopen : disk.OpenReader src with
    | none => simp [hopen] at hop
    | some files =>
      simp only [hopen] at hop
      rcases Unzip.loop_ops disk dest files [] op hop with h | ⟨f, hf, hin, hcall⟩
      · simp at h
      · exact ⟨files, f, rfl, hf, hin, hcall⟩
  refine ⟨hops, ?_, ?_⟩
  · intro path mode content hmem
    rcases hmem with hmem | hmem
    · obtain ⟨_, f, -, -, hin, hcall⟩ := hops _ hmem
      rcases hcall with ⟨-, h⟩ | ⟨-, h | h | ⟨c, -, h⟩⟩
      · cases h
      · cases h
      · cases h
        exact hin
      · cases h
    · obtain ⟨_, f, -, -, hin, hcall⟩ := hops _ hmem
      rcases hcall with ⟨-, h⟩ | ⟨-, h | h | ⟨c, -, h⟩⟩
      · cases h
      · cases h
      · cases h
      · cases h
        exact hin
  · intro before after f hopen hout
    unfold Unzip
    simp only [hopen]
    exact Unzip.loop_skip disk dest before after f [] hout

/-- Witness of C17: the upload of an archive into `./plugins`. The entry
`../evil.js` climbs out of the destination and the entry `demo/..` resolves to
the destination itself; both are skipped. -/
theorem Unzip_stays_inside_witness :
    Unzip uploadDisk "./plugins/upload.zip" "./plugins" =
      ([FsOp.MkdirAll "plugins/demo", FsOp.MkdirAll "plugins/demo",
        FsOp.OpenFile "plugins/demo/main.js" 420,
        FsOp.Copy "plugins/demo/main.js" "code"], none) ∧
    Unzip uploadDisk "./plugins/upload.zip" "./plugins" =
      Unzip.loop uploadDisk "./plugins" []
        ([] ++ [{ Name := "demo/..", IsDir := true, Mode := 493, Open := none },
          { Name := "demo/", IsDir := true, Mode := 493, Open := none },
          { Name := "demo/main.js", IsDir := false, Mode := 420, Open := some "code" }]) :=
  ⟨by decide,
    (Unzip_stays_inside uploadDisk "./plugins/upload.zip" "./plugins").2.2 []
      [{ Name := "demo/..", IsDir := true, Mode := 493, Open := none },
        { Name := "demo/", IsDir := true, Mode := 493, Open := none },
        { Name := "demo/main.js", IsDir := false, Mode := 420, Open := some "code" }]
      { Name := "../evil.js", IsDir := false, Mode := 420, Open := some "evil" } rfl
      (by decide)⟩

end GoPress
